import Mathlib

set_option maxRecDepth 16384

/-!
Verification of the pricing-page discovery and extraction pipeline of
`rev-saas` (`internal/service`, pricing v2).  The Go source is shallowly
embedded: pure string/list computations are translated directly; external
effects (HTTP, the LLM call, the headless browser) are modelled as oracle
inputs threaded through the same control flow as the source.  Go `float64`
amounts are modelled as `ℚ` (the source only compares them and renders two
decimals; no float rounding is exercised), Go `map` iteration (unspecified
order) is determinized to insertion order, and Go's unstable `sort.Slice`
is determinized to a stable insertion sort with the source's comparator.
Byte-based Go string primitives are modelled on characters; all string
constants involved are ASCII, where the two coincide.
-/

namespace RevSaaS

/-- Split a character list at non-overlapping occurrences of `sep`
(leftmost first); the fuel argument makes totality obvious and is always
called with enough fuel to finish. -/
def splitFuel (sep : List Char) : ℕ → List Char → List Char → List (List Char)
  | 0, l, cur => [cur.reverse ++ l]
  | _ + 1, [], cur => [cur.reverse]
  | fuel + 1, c :: rest, cur =>
    if sep.isPrefixOf (c :: rest) then
      cur.reverse :: splitFuel sep fuel ((c :: rest).drop sep.length) []
    else splitFuel sep fuel rest (c :: cur)

/-- Model of Go `strings.Split` / Lean `String.splitOn` (empty separator
returns the string whole). -/
def goSplitOn (s sep : String) : List String :=
  if sep = "" then [s]
  else (splitFuel sep.data (s.data.length + 1) s.data []).map String.mk

/-- Model of Go `strings.Contains` (for the ASCII patterns used by the
service a byte-level substring test agrees with this character-level one). -/
def goContains (s pat : String) : Bool :=
  if pat = "" then true else (goSplitOn s pat).length ≥ 2

/-- Model of Go `strings.ToLower` (the service only lower-cases ASCII
content, where Go and this character map agree). -/
def goToLower (s : String) : String := String.mk (s.data.map Char.toLower)

/-- Model of Go `strings.TrimSpace`. -/
def goTrim (s : String) : String :=
  String.mk (((s.data.dropWhile Char.isWhitespace).reverse.dropWhile
    Char.isWhitespace).reverse)

/-- Model of Go `strings.HasPrefix`. -/
def goStartsWith (s pre : String) : Bool := pre.data.isPrefixOf s.data

/-- Model of Go `strings.HasSuffix`. -/
def goEndsWith (s suf : String) : Bool := suf.data.isSuffixOf s.data

/-- Byte-wise lexicographic `<` of Go strings (on ASCII text, identical
to code-point order). -/
def charListLt : List Char → List Char → Bool
  | [], [] => false
  | [], _ :: _ => true
  | _ :: _, [] => false
  | a :: as, b :: bs => if a < b then true else if b < a then false else charListLt as bs

def goStrLt (a b : String) : Bool := charListLt a.data b.data

/-- Whitespace class of Go's regexp `\s`. -/
def goWS (ch : Char) : Bool :=
  ch = ' ' || ch = '\t' || ch = '\n' || ch = '\x0c' || ch = '\r'

/-- Model of `regexp.MustCompile(`"\s+"`).ReplaceAllString(s, " ")`:
each maximal whitespace run becomes one space.  The flag records whether
the previous character was whitespace; structural recursion on the list. -/
def collapseWSAux (inWS : Bool) : List Char → List Char
  | [] => []
  | c :: rest =>
    if goWS c then
      (if inWS then collapseWSAux true rest else ' ' :: collapseWSAux true rest)
    else c :: collapseWSAux false rest

def collapseWS (s : String) : String := String.mk (collapseWSAux false s.data)

/-- Model of Go `strings.TrimSuffix`. -/
def goTrimSuffix (s suf : String) : String :=
  if goEndsWith s suf then s.dropRight suf.length else s

/-- Split a character list at every character satisfying `p`
(empty pieces kept). -/
def splitPred (p : Char → Bool) : List Char → List Char → List (List Char)
  | [], cur => [cur.reverse]
  | c :: rest, cur =>
    if p c then cur.reverse :: splitPred p rest []
    else splitPred p rest (c :: cur)

/-- Model of Go `strings.Fields`: split around runs of whitespace. -/
def goFields (s : String) : List String :=
  ((splitPred Char.isWhitespace s.data []).map String.mk).filter (fun w => w ≠ "")

def digitChar (n : Nat) : Char := Char.ofNat (48 + n)

/-- Decimal digits of a natural number, most significant first
(model of Go's `%d` rendering); structural recursion on a fuel argument
that always suffices. -/
def natDigitsFuel : ℕ → ℕ → List Char
  | 0, _ => []
  | fuel + 1, n =>
    if n < 10 then [digitChar n]
    else natDigitsFuel fuel (n / 10) ++ [digitChar (n % 10)]

def natDigits (n : ℕ) : List Char := natDigitsFuel (n + 1) n

def natStr (n : Nat) : String := String.mk (natDigits n)

/-- Floor of a rational, computed by floor division of the numerator. -/
def ratFloor (q : ℚ) : ℤ := q.num.fdiv q.den

/-- Round to nearest integer (ties up). -/
def goRound (q : ℚ) : ℤ := ratFloor (q + 1 / 2)

/-- Model of Go `fmt.Sprintf("%.2f", x)` on a rational amount: round to
cents and render with exactly two decimals.  (Go rounds ties to even; the
tie direction is irrelevant to every property proved below.) -/
def fmtTwoDec (q : ℚ) : String :=
  let c : ℤ := goRound (q * 100)
  let n : ℕ := c.natAbs
  let fp := n % 100
  (if c < 0 then "-" else "") ++ natStr (n / 100) ++ "." ++
    (if fp < 10 then "0" else "") ++ natStr fp

def isDigitOrComma (ch : Char) : Bool := ch.isDigit || ch = ','

/-- Leftmost match of the Go regexp `[\d,]+\.?\d*` at the head of `l`,
if any. -/
def numMatchAt (l : List Char) : Option (List Char) :=
  let part1 := l.takeWhile isDigitOrComma
  if part1.isEmpty then none
  else
    match l.drop part1.length with
    | '.' :: rest2 => some (part1 ++ '.' :: rest2.takeWhile Char.isDigit)
    | _ => some part1

/-- Leftmost match of `[\d,]+\.?\d*` anywhere in the string
(model of `regexp.FindString`); `none` when there is no match. -/
def findFirstNumber : List Char → Option (List Char)
  | [] => none
  | c :: rest =>
    match numMatchAt (c :: rest) with
    | some m => some m
    | none => findFirstNumber rest

/-! ## URL model (`net/url`, `net` as used by the service) -/

structure URLParts where
  scheme : String
  host : String
  path : String
deriving DecidableEq

def validSchemeChar (ch : Char) : Bool :=
  ch.isAlpha || ch.isDigit || ch = '+' || ch = '-' || ch = '.'

/-- Model of Go `net/url.Parse` restricted to the shapes the service feeds
it: an absolute `scheme://authority[path]` URL, or a schemeless string
(parsed by Go with empty scheme and host).  The scheme is lower-cased as
in Go; a space in the authority is a parse error as in Go.  Percent-escape
validation and the rarer error cases of `url.Parse` are not modelled; no
claim below depends on them. -/
def parseURL (s : String) : Option URLParts :=
  match goSplitOn s "://" with
  | [] => none
  | [whole] => some ⟨"", "", whole⟩
  | scheme :: rest1 =>
    let rest := String.intercalate "://" rest1
    if scheme = "" then none
    else if ¬ scheme.data.all validSchemeChar then none
    else if ¬ (scheme.data.head?.elim false Char.isAlpha) then none
    else
      let hostChars := rest.data.takeWhile (fun ch => ch ≠ '/' ∧ ch ≠ '?' ∧ ch ≠ '#')
      let host := String.mk hostChars
      let path := String.mk (rest.data.drop hostChars.length)
      if host.data.any (fun ch => ch = ' ') then none
      else some ⟨goToLower scheme, host, path⟩

/-- Model of `(*url.URL).Hostname()` (via Go's `stripPort`). -/
def hostnameOf (hp : String) : String :=
  let l := hp.data
  if ¬ l.contains ':' then hp
  else if l.contains ']' then
    let inner := l.takeWhile (fun ch => ch ≠ ']')
    String.mk (if inner.head? = some '[' then inner.tail else inner)
  else String.mk (l.takeWhile (fun ch => ch ≠ ':'))

/-- An IP address as classified by Go's `net` package: either four octets
or eight 16-bit groups. -/
inductive IPAddr where
  | v4 (a b c d : ℕ)
  | v6 (gs : List ℕ)
deriving DecidableEq

/-- One decimal octet of a dotted quad, per Go `net.ParseIP`
(1–3 digits, value ≤ 255, no leading zeros). -/
def parseDecOctet (s : List Char) : Option ℕ :=
  if s.isEmpty then none
  else if ¬ s.all Char.isDigit then none
  else if 1 < s.length ∧ s.head? = some '0' then none
  else if 3 < s.length then none
  else
    let v := s.foldl (fun acc c => acc * 10 + (c.toNat - 48)) 0
    if v ≤ 255 then some v else none

def parseIPv4 (s : String) : Option (ℕ × ℕ × ℕ × ℕ) :=
  match (goSplitOn s ".").map (fun t => parseDecOctet t.data) with
  | [some a, some b, some c, some d] => some (a, b, c, d)
  | _ => none

def isHexChar (ch : Char) : Bool :=
  (48 ≤ ch.toNat && ch.toNat ≤ 57) || (97 ≤ ch.toNat && ch.toNat ≤ 102) ||
    (65 ≤ ch.toNat && ch.toNat ≤ 70)

def hexVal (ch : Char) : ℕ :=
  if ch.toNat ≤ 57 then ch.toNat - 48
  else if 97 ≤ ch.toNat then ch.toNat - 87
  else ch.toNat - 55

/-- One hexadecimal group of an IPv6 address (1–4 hex digits). -/
def parseHexGroup (s : List Char) : Option ℕ :=
  if s.isEmpty then none
  else if 4 < s.length then none
  else if ¬ s.all isHexChar then none
  else some (s.foldl (fun acc c => acc * 16 + hexVal c) 0)

/-- Colon-separated groups; the final group may be an embedded dotted
quad (contributing two 16-bit groups), as in Go `net.ParseIP`. -/
def parseGroupsAux : List String → Option (List ℕ)
  | [] => some []
  | [last] =>
    match parseHexGroup last.data with
    | some v => some [v]
    | none =>
      match parseIPv4 last with
      | some (a, b, c, d) => some [a * 256 + b, c * 256 + d]
      | none => none
  | g :: rest =>
    match parseHexGroup g.data, parseGroupsAux rest with
    | some v, some vs => some (v :: vs)
    | _, _ => none

/-- IPv6 textual form with at most one `::` compression, expanded to
exactly eight groups. -/
def parseIPv6 (s : String) : Option (List ℕ) :=
  match goSplitOn s "::" with
  | [one] =>
    match parseGroupsAux (goSplitOn one ":") with
    | some gs => if gs.length = 8 then some gs else none
    | none => none
  | [pre, post] =>
    match (if pre = "" then some [] else parseGroupsAux (goSplitOn pre ":")),
        (if post = "" then some [] else parseGroupsAux (goSplitOn post ":")) with
    | some gpre, some gpost =>
      if gpre.length + gpost.length ≤ 7 then
        some (gpre ++ List.replicate (8 - gpre.length - gpost.length) 0 ++ gpost)
      else none
    | _, _ => none
  | _ => none

/-- Model of Go `net.ParseIP`, with IPv4-mapped IPv6 addresses
(`::ffff:a.b.c.d`) unwrapped to their 4-byte form, matching how the
`net.IP` classification methods treat them (via `To4`). -/
def parseIP (s : String) : Option IPAddr :=
  if s.data.contains '.' ∧ ¬ s.data.contains ':' then
    (parseIPv4 s).map (fun p => .v4 p.1 p.2.1 p.2.2.1 p.2.2.2)
  else
    match parseIPv6 s with
    | some gs =>
      if gs.take 6 = [0, 0, 0, 0, 0, 65535] then
        match gs.drop 6 with
        | [hi, lo] => some (.v4 (hi / 256) (hi % 256) (lo / 256) (lo % 256))
        | _ => none
      else some (.v6 gs)
    | none => none

/-- Go `(net.IP).IsLoopback`. -/
def isLoopback : IPAddr → Bool
  | .v4 a _ _ _ => a = 127
  | .v6 gs => gs = [0, 0, 0, 0, 0, 0, 0, 1]

/-- Go `(net.IP).IsPrivate` (RFC 1918 for v4; `fc00::/7` for v6, testing
the first byte as `ip[0]&0xfe == 0xfc`). -/
def isPrivate : IPAddr → Bool
  | .v4 a b _ _ => a = 10 || (a = 172 && b &&& 240 = 16) || (a = 192 && b = 168)
  | .v6 gs =>
    match gs.head? with
    | some g => g &&& 65024 = 64512
    | none => false

/-- Go `(net.IP).IsLinkLocalUnicast` (`169.254/16` for v4; `fe80::/10`
for v6, testing `ip[0] == 0xfe && ip[1]&0xc0 == 0x80`). -/
def isLinkLocalUnicast : IPAddr → Bool
  | .v4 a b _ _ => a = 169 && b = 254
  | .v6 gs =>
    match gs.head? with
    | some g => g &&& 65472 = 65152
    | none => false

/-- Direct translation of the service's `validateURL`; `none` means the
URL is accepted, `some msg` carries the Go error message. -/
def validateURL (rawURL : String) : Option String :=
  match parseURL rawURL with
  | none => some "invalid URL format"
  | some parsed =>
    if parsed.scheme ≠ "http" ∧ parsed.scheme ≠ "https" then
      some "only http/https URLs allowed"
    else
      let host := hostnameOf parsed.host
      if host = "localhost" ∨ host = "127.0.0.1" ∨ host = "0.0.0.0" then
        some "localhost not allowed"
      else
        match parseIP host with
        | some ip =>
          if isLoopback ip || isPrivate ip || isLinkLocalUnicast ip then
            some "private/internal IPs not allowed"
          else none
        | none => none

/-- Model of `(*url.URL).String()` for the parts tracked here. -/
def urlString (u : URLParts) : String :=
  (if u.scheme = "" then "" else u.scheme ++ "://") ++ u.host ++ u.path

/-- Direct translation of the service's `normalizeURL`. -/
def normalizeURL (rawURL : String) : String :=
  let r := goTrim rawURL
  if r = "" then ""
  else
    let r := if ¬ goStartsWith r "http://" ∧ ¬ goStartsWith r "https://" then
      "https://" ++ r else r
    match parseURL r with
    | none => ""
    | some parsed =>
      let parsed := if parsed.path = "" then { parsed with path := "/" } else parsed
      urlString parsed

/-- Model of `base.ResolveReference(ref)` as used by the service's
`resolveURL`: absolute references are kept, root-relative and relative
paths are resolved against the base (dot segments are not normalized; the
discovery claims below do not depend on them). -/
def resolveURL (base : URLParts) (ref : String) : String :=
  match parseURL ref with
  | none => ""
  | some r =>
    if r.scheme ≠ "" then urlString r
    else if goStartsWith r.path "/" then urlString { base with path := r.path }
    else if r.path = "" then urlString base
    else
      let dir := String.mk ((base.path.data.reverse.dropWhile (fun ch => ch ≠ '/')).reverse)
      urlString { base with path := (if dir = "" then "/" else dir) ++ r.path }

/-! ## Data model (`internal/model`, fields as used by the pricing v2
service and its extraction contract; Go zero values model absent JSON
fields, so a numeric `0` means "no amount") -/

structure IncludedUnit where
  name : String
  amount : ℚ
  unit : String
  rawText : String
deriving DecidableEq

structure PlanEvidence where
  nameSnippet : String
  priceSnippet : String
  unitsSnippet : String
  billingEvidence : String
deriving DecidableEq

structure ExtractedPlan where
  name : String
  priceAmount : ℚ
  priceString : String
  currency : String
  priceFrequency : String
  billingPeriod : String
  monthlyEquivalentAmount : ℚ
  annualBilledAmount : ℚ
  includedUnits : List IncludedUnit
  features : List String
  evidence : PlanEvidence
deriving DecidableEq

structure PricingExtractResponse where
  plans : List ExtractedPlan
  sourceURL : String
  detectedPeriods : List String
  needsRender : Bool
  renderUsed : Bool
  warnings : List String
  error : String
deriving DecidableEq

structure PricingDiscoverResponse where
  pricingCandidates : List String
  selectedPricingURL : Option String
  error : String
deriving DecidableEq

/-! ## Deduplicator/Merger -/

/-- Normalized name component of the canonical key. -/
def canonicalName (plan : ExtractedPlan) : String :=
  let n := collapseWS (goToLower (goTrim plan.name))
  goTrimSuffix (goTrimSuffix n " plan") " tier"

/-- Billing component of the canonical key
(lower-cased, empty mapped to `"unknown"`). -/
def canonicalBilling (plan : ExtractedPlan) : String :=
  let billing := goToLower plan.billingPeriod
  if billing = "" then "unknown" else billing

/-- Price component of the canonical key: `%.2f` of a positive
`price_amount`, else the first number parsed from `price_string` with
commas removed, else empty. -/
def goPriceKey (plan : ExtractedPlan) : String :=
  if 0 < plan.priceAmount then fmtTwoDec plan.priceAmount
  else if plan.priceString ≠ "" then
    match findFirstNumber plan.priceString.data with
    | some m => String.mk (m.filter (fun ch => ch ≠ ','))
    | none => ""
  else ""

/-- Direct translation of `canonicalPlanKey`. -/
def canonicalPlanKey (plan : ExtractedPlan) : String :=
  canonicalName plan ++ "|" ++ canonicalBilling plan ++ "|" ++ goPriceKey plan

/-- Direct translation of `mergePlans`.  The Go function updates the
`existing` copy field by field; every condition reads fields the earlier
updates leave untouched, so the simultaneous record update is equivalent. -/
def mergePlans (existing pNew : ExtractedPlan) : ExtractedPlan :=
  { existing with
    features :=
      if existing.features.length < pNew.features.length then pNew.features
      else existing.features
    includedUnits :=
      if existing.includedUnits.length < pNew.includedUnits.length then pNew.includedUnits
      else existing.includedUnits
    evidence :=
      if existing.evidence.priceSnippet.length < pNew.evidence.priceSnippet.length then
        pNew.evidence
      else existing.evidence
    monthlyEquivalentAmount :=
      if existing.monthlyEquivalentAmount = 0 ∧ 0 < pNew.monthlyEquivalentAmount then
        pNew.monthlyEquivalentAmount
      else existing.monthlyEquivalentAmount
    annualBilledAmount :=
      if existing.annualBilledAmount = 0 ∧ 0 < pNew.annualBilledAmount then
        pNew.annualBilledAmount
      else existing.annualBilledAmount }

/-- One step of the `deduped[key]` map update: Go maps are unordered, so
the map is determinized as an insertion-ordered association list. -/
def assocUpdate : List (String × ExtractedPlan) → String → ExtractedPlan →
    List (String × ExtractedPlan)
  | [], k, p => [(k, p)]
  | (k1, p1) :: rest, k, p =>
    if k1 = k then (k1, mergePlans p1 p) :: rest
    else (k1, p1) :: assocUpdate rest k p

def dedupFold (acc : List (String × ExtractedPlan)) (plan : ExtractedPlan) :
    List (String × ExtractedPlan) :=
  assocUpdate acc (canonicalPlanKey plan) plan

/-- The comparator passed to `sort.Slice` in `deduplicatePlans`. -/
def goPlanLess (a b : ExtractedPlan) : Bool :=
  if a.name ≠ b.name then goStrLt a.name b.name
  else goStrLt a.billingPeriod b.billingPeriod

/-- Non-strict order induced by the comparator (`sort.Slice` sorts so
that `goPlanLess` never holds of a later/earlier pair; the unstable Go
sort is determinized as a stable insertion sort for this order). -/
def planOrder (a b : ExtractedPlan) : Prop := goPlanLess b a = false

instance : DecidableRel planOrder := fun a b =>
  inferInstanceAs (Decidable (goPlanLess b a = false))

theorem charListLt_irrefl : ∀ l : List Char, charListLt l l = false
  | [] => rfl
  | c :: rest => by
    simp only [charListLt]
    rw [if_neg (lt_irrefl c), if_neg (lt_irrefl c)]
    exact charListLt_irrefl rest

theorem charListLt_asymm : ∀ a b : List Char,
    charListLt a b = true → charListLt b a = true → False
  | [], [], h, _ => Bool.noConfusion h
  | [], _ :: _, _, h2 => Bool.noConfusion h2
  | _ :: _, [], h, _ => Bool.noConfusion h
  | a :: as, b :: bs, h1, h2 => by
    rcases lt_trichotomy a b with hab | hab | hab
    · simp only [charListLt] at h2
      rw [if_neg (lt_asymm hab), if_pos hab] at h2
      exact Bool.noConfusion h2
    · subst hab
      simp only [charListLt] at h1 h2
      rw [if_neg (lt_irrefl a), if_neg (lt_irrefl a)] at h1 h2
      exact charListLt_asymm as bs h1 h2
    · simp only [charListLt] at h1
      rw [if_neg (lt_asymm hab), if_pos hab] at h1
      exact Bool.noConfusion h1

theorem charListLt_trichotomy : ∀ a b : List Char,
    charListLt a b = false → a = b ∨ charListLt b a = true
  | [], [], _ => Or.inl rfl
  | [], _ :: _, h => Bool.noConfusion h
  | _ :: _, [], _ => Or.inr rfl
  | a :: as, b :: bs, h => by
    rcases lt_trichotomy a b with hab | hab | hab
    · simp only [charListLt] at h
      rw [if_pos hab] at h
      exact Bool.noConfusion h
    · subst hab
      simp only [charListLt] at h
      rw [if_neg (lt_irrefl a), if_neg (lt_irrefl a)] at h
      rcases charListLt_trichotomy as bs h with he | hl
      · exact Or.inl (by rw [he])
      · refine Or.inr ?_
        simp only [charListLt]
        rw [if_neg (lt_irrefl a), if_neg (lt_irrefl a)]
        exact hl
    · refine Or.inr ?_
      simp only [charListLt]
      rw [if_pos hab]

theorem charListLt_trans : ∀ a b c : List Char,
    charListLt a b = true → charListLt b c = true → charListLt a c = true
  | [], b, [], h1, h2 => by
    cases b with
    | nil => exact Bool.noConfusion h1
    | cons x xs => exact Bool.noConfusion h2
  | [], _, _ :: _, _, _ => rfl
  | _ :: _, [], _, h1, _ => Bool.noConfusion h1
  | _ :: _, _ :: _, [], _, h2 => Bool.noConfusion h2
  | a :: as, b :: bs, c :: cs, h1, h2 => by
    rcases lt_trichotomy a b with hab | hab | hab
    · rcases lt_trichotomy b c with hbc | hbc | hbc
      · simp only [charListLt]
        rw [if_pos (hab.trans hbc)]
      · subst hbc
        simp only [charListLt]
        rw [if_pos hab]
      · exfalso
        simp only [charListLt] at h2
        rw [if_neg (lt_asymm hbc), if_pos hbc] at h2
        exact Bool.noConfusion h2
    · subst hab
      rcases lt_trichotomy a c with hac | hac | hac
      · simp only [charListLt]
        rw [if_pos hac]
      · subst hac
        simp only [charListLt] at h1 h2 ⊢
        rw [if_neg (lt_irrefl a), if_neg (lt_irrefl a)] at h1 h2 ⊢
        exact charListLt_trans as bs cs h1 h2
      · exfalso
        simp only [charListLt] at h2
        rw [if_neg (lt_asymm hac), if_pos hac] at h2
        exact Bool.noConfusion h2
    · exfalso
      simp only [charListLt] at h1
      rw [if_neg (lt_asymm hab), if_pos hab] at h1
      exact Bool.noConfusion h1

theorem goStrLt_asymm {a b : String} :
    goStrLt a b = true → goStrLt b a = true → False :=
  charListLt_asymm a.data b.data

theorem goStrLt_trichotomy {a b : String} (h : goStrLt a b = false) :
    a = b ∨ goStrLt b a = true := by
  rcases charListLt_trichotomy a.data b.data h with he | hl
  · refine Or.inl ?_
    cases a
    cases b
    exact congrArg String.mk he
  · exact Or.inr hl

theorem goStrLt_trans {a b c : String} :
    goStrLt a b = true → goStrLt b c = true → goStrLt a c = true :=
  charListLt_trans a.data b.data c.data

/-- The key fact behind transitivity of `planOrder`: "not less" is
transitive for a comparator with trichotomy. -/
theorem goStrLt_nlt_trans {a b c : String}
    (h1 : goStrLt b a = false) (h2 : goStrLt c b = false) :
    goStrLt c a = false := by
  cases hca : goStrLt c a
  · rfl
  · exfalso
    rcases goStrLt_trichotomy h1 with he | hl
    · subst he
      rw [h2] at hca
      exact Bool.false_ne_true hca
    · rcases goStrLt_trichotomy h2 with he2 | hl2
      · subst he2
        exact goStrLt_asymm hl hca
      · exact goStrLt_asymm (goStrLt_trans hl hl2) hca

theorem goPlanLess_asymm {a b : ExtractedPlan} :
    goPlanLess a b = true → goPlanLess b a = true → False := by
  unfold goPlanLess
  by_cases h : a.name = b.name
  · rw [if_neg (by simp [h]), if_neg (by simp [h.symm])]
    exact fun h1 h2 => goStrLt_asymm h1 h2
  · rw [if_pos h, if_pos (fun e => h e.symm)]
    exact fun h1 h2 => goStrLt_asymm h1 h2

instance : IsTotal ExtractedPlan planOrder := by
  constructor
  intro a b
  unfold planOrder
  cases h1 : goPlanLess b a
  · exact Or.inl rfl
  · cases h2 : goPlanLess a b
    · exact Or.inr rfl
    · exact absurd (goPlanLess_asymm h2 h1) (by simp)

instance : IsTrans ExtractedPlan planOrder := by
  constructor
  intro a b c hab hbc
  unfold planOrder goPlanLess at hab hbc ⊢
  by_cases hba : b.name = a.name
  · by_cases hcb : c.name = b.name
    · have hca : c.name = a.name := hcb.trans hba
      rw [if_neg (by simp [hba])] at hab
      rw [if_neg (by simp [hcb])] at hbc
      rw [if_neg (by simp [hca])]
      exact goStrLt_nlt_trans hab hbc
    · have hca : c.name ≠ a.name := fun e => hcb (e.trans hba.symm)
      rw [if_pos hcb] at hbc
      rw [if_pos hca]
      rw [hba] at hbc
      exact hbc
  · by_cases hcb : c.name = b.name
    · have hca : c.name ≠ a.name := fun e => hba (hcb.symm.trans e)
      rw [if_pos hba] at hab
      rw [if_pos hca, hcb]
      exact hab
    · rw [if_pos hba] at hab
      rw [if_pos hcb] at hbc
      by_cases hca : c.name = a.name
      · exfalso
        rcases goStrLt_trichotomy hab with he | h1
        · exact hba he
        · rcases goStrLt_trichotomy hbc with he2 | h2
          · exact hcb he2
          · have h3 := goStrLt_trans h1 h2
            rw [hca] at h3
            exact goStrLt_asymm h3 h3
      · rw [if_pos hca]
        exact goStrLt_nlt_trans hab hbc

/-- Direct translation of `deduplicatePlans` (map iteration determinized
to insertion order, `sort.Slice` to a stable insertion sort). -/
def deduplicatePlans (plans : List ExtractedPlan) : List ExtractedPlan :=
  if plans.length ≤ 1 then plans
  else
    let deduped := plans.foldl dedupFold []
    List.insertionSort planOrder (deduped.map Prod.snd)

/-- Direct translation of `detectBillingPeriods` (set iteration
determinized to first-occurrence order). -/
def detectBillingPeriods (plans : List ExtractedPlan) : List String :=
  plans.foldl
    (fun acc p =>
      if p.billingPeriod ≠ "" ∧ p.billingPeriod ≠ "unknown" ∧ ¬ acc.contains p.billingPeriod
      then acc ++ [p.billingPeriod] else acc) []

def toggleIndicators : List String :=
  ["pay monthly", "pay annually", "monthly", "yearly", "annual",
   "billed monthly", "billed annually", "billed yearly",
   "save", "per month", "per year", "/mo", "/yr",
   "switch to annual", "switch to monthly"]

/-- Direct translation of `detectBillingToggle`. -/
def detectBillingToggle (visibleText rawHTML : String) : Bool :=
  let contentLower := goToLower (visibleText ++ " " ++ rawHTML)
  let toggleCount := toggleIndicators.countP (fun ind => goContains contentLower ind)
  let hasTabList := goContains rawHTML "role=\"tablist\"" ||
    goContains rawHTML "role=\"tab\"" ||
    goContains rawHTML "toggle" || goContains rawHTML "switch"
  decide (2 ≤ toggleCount) || (decide (1 ≤ toggleCount) && hasTabList)

/-! ## Content Fetcher -/

def maxResponseSize : ℕ := 5 * 1024 * 1024

/-- An HTTP response as seen by the service's shared client. -/
structure HTTPResponse where
  status : ℕ
  body : String
deriving DecidableEq

/-- Direct translation of `fetchPageContent`.  The visible-text
derivation (`extractVisibleText`, an HTML-tree walk) is an input
parameter; `none` for the response models a transport error of
`httpClient.Do`.  Returns (visible text, raw HTML). -/
def fetchPageContent (extractText : String → String) (resp : Option HTTPResponse) :
    Except String (String × String) :=
  match resp with
  | none => .error "network error"
  | some r =>
    if r.status ≠ 200 then .error ("HTTP " ++ natStr r.status)
    else
      let rawHTML := if maxResponseSize < r.body.length then r.body.take maxResponseSize
        else r.body
      .ok (extractText rawHTML, rawHTML)

/-! ## Browser-assisted pass: state-change verification -/

def monthlyIndicators : List String :=
  ["billed monthly", "/mo", "per month", "monthly billing"]

def yearlyIndicators : List String :=
  ["billed annually", "billed yearly", "/yr", "per year", "save", "annually"]

/-- Direct translation of `textSimilarity` (word-set Jaccard ratio). -/
def textSimilarity (text1 text2 : String) : ℚ :=
  if text1 = text2 then 1
  else
    let words1 := goFields (goToLower text1)
    let words2 := goFields (goToLower text2)
    if words1.isEmpty ∨ words2.isEmpty then 0
    else
      let nmatches := words2.countP (fun w => words1.contains w)
      (nmatches : ℚ) / ((words1.length : ℚ) + (words2.length : ℚ) - (nmatches : ℚ))

/-- Results of the two external probes `verifyStateChange` runs via the
browser session (the `aria-selected` script and `chromedp.Location`). -/
structure VerifyProbes where
  ariaMatchesClicked : Bool
  currentURL : String
deriving DecidableEq

/-- Direct translation of `verifyStateChange`: the four layered checks,
any one of which suffices. -/
def verifyStateChange (probes : VerifyProbes) (newText previousText billingType : String) :
    Bool :=
  (if newText ≠ previousText ∧ 100 < newText.length then
    decide (textSimilarity previousText newText < (95 : ℚ) / 100)
  else false) ||
  (if billingType = "monthly" then
    monthlyIndicators.any (fun ind => goContains (goToLower newText) ind)
  else if billingType = "yearly" then
    yearlyIndicators.any (fun ind => goContains (goToLower newText) ind)
  else false) ||
  probes.ariaMatchesClicked ||
  goContains (goToLower probes.currentURL) billingType

/-- Outcome of one click attempt in `clickTabWithVerification`: the
`chromedp.Click` run may fail, the state capture may fail, or a new
HTML/text state is captured together with the verification probes. -/
inductive ClickAttempt where
  | clickErr
  | captureErr
  | captured (html text : String) (probes : VerifyProbes)
deriving DecidableEq

/-- The retry loop of `clickTabWithVerification` (`maxRetries = 2`);
`outcomes` supplies the browser's behaviour per attempt. -/
def clickLoop : ℕ → List ClickAttempt → String → String → Bool × String × String
  | 0, _, _, _ => (false, "", "")
  | _ + 1, [], _, _ => (false, "", "")
  | n + 1, o :: rest, billingType, previousText =>
    match o with
    | .clickErr => clickLoop n rest billingType previousText
    | .captureErr => clickLoop n rest billingType previousText
    | .captured h t probes =>
      if verifyStateChange probes t previousText billingType then (true, h, t)
      else clickLoop n rest billingType previousText

/-- Direct translation of `clickTabWithVerification`. -/
def clickTabWithVerification (outcomes : List ClickAttempt)
    (billingType previousText : String) : Bool × String × String :=
  clickLoop 2 outcomes billingType previousText

/-- Oracle for one browser-render session: page load result, the tab
selectors `findBillingTabs` settles on, the per-attempt click outcomes,
and the LLM response for the combined content. -/
structure BrowserEnv where
  loadResult : Option (String × String)
  monthlyTab : String
  yearlyTab : String
  monthlyOutcomes : List ClickAttempt
  yearlyOutcomes : List ClickAttempt
  llm : List ExtractedPlan × List String × Option String

/-- Direct translation of the control flow of `extractWithBrowserRender`
(the chromedp calls are answered by `env`; the combined-content string
building only feeds the LLM oracle and is omitted).  Returns plans,
detected periods and warnings, or the error. -/
def extractWithBrowserRender (env : BrowserEnv) :
    Except String (List ExtractedPlan × List String × List String) :=
  match env.loadResult with
  | none => .error "failed to load page"
  | some (_, defaultText) =>
    let mRes := if env.monthlyTab ≠ "" then
      clickTabWithVerification env.monthlyOutcomes "monthly" defaultText
      else (false, "", "")
    let warnings1 : List String :=
      if env.monthlyTab ≠ "" then
        (if mRes.1 then [] else ["monthly_toggle_failed"])
      else ["monthly_toggle_not_found"]
    let yRes := if env.yearlyTab ≠ "" then
      clickTabWithVerification env.yearlyOutcomes "yearly" defaultText
      else (false, "", "")
    let warnings2 : List String := warnings1 ++
      (if env.yearlyTab ≠ "" then
        (if yRes.1 then [] else ["yearly_toggle_failed"])
      else ["yearly_toggle_not_found"])
    let warnings3 : List String :=
      if ¬ mRes.1 ∧ ¬ yRes.1 then warnings2 ++ ["no_toggle_clicked"] else warnings2
    match env.llm with
    | (_, _, some e) => .error ("LLM extraction failed: " ++ e)
    | (plans0, llmWarnings, none) =>
      let plans := deduplicatePlans plans0
      .ok (plans, detectBillingPeriods plans, warnings3 ++ llmWarnings)

/-! ## Orchestrator (`ExtractPricing`) -/

def shouldUseBrowserRender : Bool := true

/-- The stage-3 trigger: toggle suspected and at most one billing period
recovered statically. -/
def needsRenderFlag (hasToggle : Bool) (periods : List String) : Bool :=
  hasToggle && periods.length ≤ 1

/-- Oracle for one `ExtractPricing` run: the HTTP response for the
pricing URL, the visible-text derivation, the static-pass LLM response
(plans, warnings, error — mirroring `extractWithLLM`'s returns), and the
browser session behaviour. -/
structure ExtractEnv where
  httpResp : Option HTTPResponse
  extractText : String → String
  llmStatic : List ExtractedPlan × List String × Option String
  browser : BrowserEnv

/-- Direct translation of `ExtractPricing`'s control flow. -/
def extractPricing (env : ExtractEnv) (pricingURL : String) : PricingExtractResponse :=
  match validateURL pricingURL with
  | some e =>
    { plans := [], sourceURL := "", detectedPeriods := [], needsRender := false,
      renderUsed := false, warnings := [], error := "invalid URL: " ++ e }
  | none =>
    match fetchPageContent env.extractText env.httpResp with
    | .error e =>
      { plans := [], sourceURL := "", detectedPeriods := [], needsRender := false,
        renderUsed := false, warnings := [], error := "failed to fetch page: " ++ e }
    | .ok (visibleText, rawHTML) =>
      if visibleText.length < 100 then
        { plans := [], sourceURL := "", detectedPeriods := [], needsRender := false,
          renderUsed := false, warnings := ["page_content_minimal"],
          error := "page content too short or empty" }
      else
        let hasToggle := detectBillingToggle visibleText rawHTML
        match env.llmStatic with
        | (_, warnings0, some e) =>
          { plans := [], sourceURL := "", detectedPeriods := [], needsRender := false,
            renderUsed := false, warnings := warnings0,
            error := "extraction failed: " ++ e }
        | (plans0, warnings0, none) =>
          let plans := deduplicatePlans plans0
          let periods := detectBillingPeriods plans
          let needsRender := needsRenderFlag hasToggle periods
          let warnings1 :=
            if needsRender then warnings0 ++ ["toggle_detected_single_period"]
            else warnings0
          if needsRender && shouldUseBrowserRender then
            match extractWithBrowserRender env.browser with
            | .error _ =>
              { plans := plans, sourceURL := pricingURL, detectedPeriods := periods,
                needsRender := needsRender, renderUsed := false,
                warnings := warnings1 ++ ["browser_render_failed"], error := "" }
            | .ok (bPlans0, bPeriods, bWarnings) =>
              let bPlans := deduplicatePlans bPlans0
              if plans.length < bPlans.length ∨ periods.length < bPeriods.length then
                { plans := bPlans, sourceURL := pricingURL, detectedPeriods := bPeriods,
                  needsRender := false, renderUsed := true,
                  warnings := warnings1 ++ bWarnings, error := "" }
              else
                { plans := plans, sourceURL := pricingURL, detectedPeriods := periods,
                  needsRender := needsRender, renderUsed := false,
                  warnings := warnings1, error := "" }
          else
            { plans := plans, sourceURL := pricingURL, detectedPeriods := periods,
              needsRender := needsRender, renderUsed := false,
              warnings := warnings1, error := "" }

/-! ## Pricing-Page Discoverer -/

def defaultWebsite : String := "https://www.usemotion.com/"

def commonPricingPaths : List String :=
  ["/pricing", "/plans", "/billing", "/upgrade", "/subscribe", "/pro", "/premium"]

def pricingKeywords : List String :=
  ["pricing", "price", "plan", "plans", "billing",
   "upgrade", "subscribe", "signup", "membership",
   "pro", "premium", "enterprise"]

/-- Oracle for one discovery run: the HEAD-probe existence checks and
the homepage anchor hrefs (`none` models a homepage fetch failure). -/
structure DiscoverEnv where
  urlExists : String → Bool
  homepageLinks : Option (List String)

/-- Direct translation of `DiscoverPricingPage` (probe scores
`100 - 10*i`, keyword links flat 50, descending stable sort, cap 5). -/
def discoverPricingPage (env : DiscoverEnv) (websiteURL : String) :
    PricingDiscoverResponse :=
  let w0 := normalizeURL websiteURL
  let w := if w0 = "" then defaultWebsite else w0
  match validateURL w with
  | some e =>
    { pricingCandidates := [], selectedPricingURL := none,
      error := "invalid URL: " ++ e }
  | none =>
    match parseURL w with
    | none =>
      { pricingCandidates := [], selectedPricingURL := none,
        error := "failed to parse URL" }
    | some base =>
      let probes := commonPricingPaths.enum.filterMap (fun pr =>
        let testURL := base.scheme ++ "://" ++ base.host ++ pr.2
        if env.urlExists testURL then some (testURL, 100 - 10 * pr.1) else none)
      let fromLinks : List (String × ℕ) :=
        match env.homepageLinks with
        | none => []
        | some links =>
          links.foldl (fun acc link =>
            if pricingKeywords.any (fun kw => goContains (goToLower link) kw) then
              let fullURL := resolveURL base link
              if fullURL ≠ "" ∧
                  ¬ ((probes.map Prod.fst ++ acc.map Prod.fst).contains fullURL) then
                acc ++ [(fullURL, 50)]
              else acc
            else acc) []
      let sorted := List.insertionSort
        (fun x y : String × ℕ => y.2 ≤ x.2) (probes ++ fromLinks)
      let capped := (sorted.map Prod.fst).take 5
      { pricingCandidates := capped, selectedPricingURL := capped.head?, error := "" }

/-! ## Helpers for concrete witnesses -/

instance {ε α : Type} [DecidableEq ε] [DecidableEq α] : DecidableEq (Except ε α) :=
  fun a b =>
    match a, b with
    | .ok x, .ok y =>
      match decEq x y with
      | isTrue h => isTrue (by rw [h])
      | isFalse h => isFalse (by intro he; cases he; exact h rfl)
    | .error x, .error y =>
      match decEq x y with
      | isTrue h => isTrue (by rw [h])
      | isFalse h => isFalse (by intro he; cases he; exact h rfl)
    | .ok _, .error _ => isFalse (by intro he; cases he)
    | .error _, .ok _ => isFalse (by intro he; cases he)

def isOkE {α : Type} (e : Except String α) : Bool :=
  match e with
  | .ok _ => true
  | .error _ => false

/-- A plan record with the given name and billing period and Go zero
values elsewhere. -/
def mkPlan (name billing : String) : ExtractedPlan :=
  { name := name, priceAmount := 0, priceString := "", currency := "USD",
    priceFrequency := "", billingPeriod := billing,
    monthlyEquivalentAmount := 0, annualBilledAmount := 0,
    includedUnits := [], features := [], evidence := ⟨"", "", "", ""⟩ }

/-! ## C10 — detected periods exclude unknown/empty -/

theorem detectPeriods_aux_mem (plans : List ExtractedPlan) :
    ∀ acc, (∀ p ∈ acc, p ≠ "unknown" ∧ p ≠ "") →
      ∀ p ∈ plans.foldl
        (fun acc p =>
          if p.billingPeriod ≠ "" ∧ p.billingPeriod ≠ "unknown" ∧
              ¬ acc.contains p.billingPeriod
          then acc ++ [p.billingPeriod] else acc) acc,
        p ≠ "unknown" ∧ p ≠ "" := by
  induction plans with
  | nil => intro acc hacc p hp; exact hacc p hp
  | cons q rest ih =>
    intro acc hacc p hp
    rw [List.foldl_cons] at hp
    refine ih _ ?_ p hp
    intro x hx
    split at hx
    · rename_i hc
      rcases List.mem_append.mp hx with h1 | h1
      · exact hacc x h1
      · rcases List.mem_singleton.mp h1 with rfl
        exact ⟨hc.2.1, hc.1⟩
    · exact hacc x hx

theorem detectPeriods_aux_all_unknown (plans : List ExtractedPlan)
    (h : ∀ q ∈ plans, q.billingPeriod = "unknown") :
    ∀ acc, plans.foldl
        (fun acc p =>
          if p.billingPeriod ≠ "" ∧ p.billingPeriod ≠ "unknown" ∧
              ¬ acc.contains p.billingPeriod
          then acc ++ [p.billingPeriod] else acc) acc = acc := by
  induction plans with
  | nil => intro acc; rfl
  | cons q rest ih =>
    intro acc
    have hq : q.billingPeriod = "unknown" := h q (List.mem_cons_self q rest)
    rw [List.foldl_cons]
    have hc : ¬ (q.billingPeriod ≠ "" ∧ q.billingPeriod ≠ "unknown" ∧
        ¬ acc.contains q.billingPeriod = true) := by
      simp [hq]
    rw [if_neg hc]
    exact ih (fun x hx => h x (List.mem_cons_of_mem q hx)) acc

/-- C10: `detectBillingPeriods` only returns periods that are neither
`"unknown"` nor empty; a plan list whose plans all have billing period
`"unknown"` yields no detected periods, so for such plans the
browser-render trigger `needsRenderFlag` degenerates to the toggle signal
alone (the `≤ 1` period condition holds vacuously). -/
theorem detectBillingPeriods_excludes_unknown (plans : List ExtractedPlan) :
    (∀ p ∈ detectBillingPeriods plans, p ≠ "unknown" ∧ p ≠ "") ∧
    ((∀ q ∈ plans, q.billingPeriod = "unknown") →
      detectBillingPeriods plans = [] ∧
      ∀ hasToggle, needsRenderFlag hasToggle (detectBillingPeriods plans) = hasToggle) := by
  constructor
  · exact detectPeriods_aux_mem plans [] (by simp)
  · intro h
    have he : detectBillingPeriods plans = [] :=
      detectPeriods_aux_all_unknown plans h []
    refine ⟨he, ?_⟩
    intro hasToggle
    rw [he]
    cases hasToggle <;> rfl

theorem detectBillingPeriods_excludes_unknown_witness :
    detectBillingPeriods [mkPlan "Pro" "unknown", mkPlan "Team" "unknown"] = [] ∧
    needsRenderFlag true
      (detectBillingPeriods [mkPlan "Pro" "unknown", mkPlan "Team" "unknown"]) = true := by
  have h := (detectBillingPeriods_excludes_unknown
    [mkPlan "Pro" "unknown", mkPlan "Team" "unknown"]).2 (by decide)
  exact ⟨h.1, h.2 true⟩

/-! ## C7 — fetch succeeds only on status 200, not on all of 2xx -/

/-- C7 counterexample: a `201 Created` response is in the 2xx range, yet
`fetchPageContent` rejects it (the source compares against
`http.StatusOK`, i.e. exactly 200), refuting "succeeds when the status
code is in the 2xx range". -/
theorem fetchPageContent_2xx_counterexample :
    ¬ ((isOkE (fetchPageContent id (some ⟨201, "created"⟩)) = true) ↔
      (200 ≤ 201 ∧ 201 < 300)) := by
  decide

/-- C7 (amended): for every received HTTP response, `fetchPageContent`
succeeds exactly when the status code is 200, and any other status fails
with the status-carrying error `"HTTP <status>"`. -/
theorem fetchPageContent_status (extractText : String → String) (resp : HTTPResponse)
    (hne : resp.status ≠ 200) :
    isOkE (fetchPageContent extractText (some resp)) = false ∧
    fetchPageContent extractText (some resp) = .error ("HTTP " ++ natStr resp.status) ∧
    ∀ body, isOkE (fetchPageContent extractText (some ⟨200, body⟩)) = true := by
  refine ⟨?_, ?_, ?_⟩
  · simp [fetchPageContent, hne, isOkE]
  · simp [fetchPageContent, hne]
  · intro body
    simp [fetchPageContent, isOkE]

theorem fetchPageContent_status_witness :
    isOkE (fetchPageContent id (some ⟨404, "missing"⟩)) = false ∧
    fetchPageContent id (some ⟨404, "missing"⟩) = .error ("HTTP " ++ natStr 404) ∧
    ∀ body, isOkE (fetchPageContent id (some ⟨200, body⟩)) = true :=
  fetchPageContent_status id ⟨404, "missing"⟩ (by decide)

/-! ## C6 — merging equal-key plans keeps the richer feature list -/

/-- C6: two plans with equal canonical keys (whatever their feature
lists, in particular disjoint ones) deduplicate to the single merged
record, whose feature list is at least as long as either input's. -/
theorem dedup_pair_merges (a b : ExtractedPlan)
    (hkey : canonicalPlanKey a = canonicalPlanKey b)
    (_hdisj : ∀ f ∈ a.features, f ∉ b.features) :
    deduplicatePlans [a, b] = [mergePlans a b] ∧
    max a.features.length b.features.length ≤ (mergePlans a b).features.length := by
  constructor
  · show (if ([a, b].length ≤ 1) then [a, b]
      else List.insertionSort planOrder (([a, b].foldl dedupFold []).map Prod.snd)) = _
    rw [if_neg (by simp)]
    simp only [List.foldl_cons, List.foldl_nil, dedupFold, assocUpdate]
    rw [if_pos hkey]
    rfl
  · show _ ≤ (if a.features.length < b.features.length then b.features
      else a.features).length
    split <;> omega

theorem dedup_pair_merges_witness :
    deduplicatePlans
        [{ mkPlan "Pro" "monthly" with features := ["Alpha", "Beta"] },
         { mkPlan "pro plan" "Monthly" with features := ["Gamma"] }] =
      [mergePlans { mkPlan "Pro" "monthly" with features := ["Alpha", "Beta"] }
        { mkPlan "pro plan" "Monthly" with features := ["Gamma"] }] ∧
    max 2 1 ≤ (mergePlans { mkPlan "Pro" "monthly" with features := ["Alpha", "Beta"] }
        { mkPlan "pro plan" "Monthly" with features := ["Gamma"] }).features.length :=
  dedup_pair_merges
    { mkPlan "Pro" "monthly" with features := ["Alpha", "Beta"] }
    { mkPlan "pro plan" "Monthly" with features := ["Gamma"] }
    (by decide) (by decide)

/-! ## C9 — blank or unparsable website URLs silently fall back to the
hard-coded default website -/

/-- C9: whenever normalization yields the empty string — which happens
for empty input, whitespace-only input, and input Go's URL parser rejects
— `DiscoverPricingPage` does not fail with `InvalidURL`: it substitutes
the hard-coded `defaultWebsite` (`https://www.usemotion.com/`) and runs
the whole discovery flow against that third-party site, indistinguishable
from being called on the default website itself.  The final conjuncts
exhibit the three input classes. -/
theorem discoverPricingPage_blank_uses_default (env : DiscoverEnv) (s : String)
    (h : normalizeURL s = "") :
    discoverPricingPage env s = discoverPricingPage env defaultWebsite ∧
    (discoverPricingPage env s).error = "" ∧
    normalizeURL "" = "" ∧ normalizeURL "   " = "" ∧
    normalizeURL "https://exa mple.com/" = "" := by
  refine ⟨?_, ?_, by decide, by decide, by decide⟩
  · unfold discoverPricingPage
    rw [h]
    rfl
  · unfold discoverPricingPage
    rw [h]
    rfl

theorem discoverPricingPage_blank_uses_default_witness :
    discoverPricingPage ⟨fun _ => false, none⟩ " " =
      discoverPricingPage ⟨fun _ => false, none⟩ defaultWebsite ∧
    (discoverPricingPage ⟨fun _ => false, none⟩ " ").error = "" ∧
    normalizeURL "" = "" ∧ normalizeURL "   " = "" ∧
    normalizeURL "https://exa mple.com/" = "" :=
  discoverPricingPage_blank_uses_default ⟨fun _ => false, none⟩ " " (by decide)

/-! ## Stage 3 of `ExtractPricing`: shared helper -/

/-- When validation, fetch, the length gate and the static LLM pass all
succeed and the render trigger fires, `ExtractPricing` is determined by
the browser pass result: a completed browser pass replaces the static
result exactly when it is strictly better, and is otherwise discarded
with the pre-browser warnings returned untouched. -/
theorem extractPricing_stage3 (env : ExtractEnv) (url vt rh : String)
    (plans0 : List ExtractedPlan) (warnings0 : List String)
    (bp : List ExtractedPlan) (bper bw : List String)
    (hv : validateURL url = none)
    (hf : fetchPageContent env.extractText env.httpResp = .ok (vt, rh))
    (hlen : ¬ vt.length < 100)
    (hllm : env.llmStatic = (plans0, warnings0, none))
    (hnr : needsRenderFlag (detectBillingToggle vt rh)
      (detectBillingPeriods (deduplicatePlans plans0)) = true)
    (hbr : extractWithBrowserRender env.browser = .ok (bp, bper, bw)) :
    extractPricing env url =
      if (deduplicatePlans plans0).length < (deduplicatePlans bp).length ∨
          (detectBillingPeriods (deduplicatePlans plans0)).length < bper.length then
        { plans := deduplicatePlans bp, sourceURL := url,
          detectedPeriods := bper, needsRender := false, renderUsed := true,
          warnings := (warnings0 ++ ["toggle_detected_single_period"]) ++ bw,
          error := "" }
      else
        { plans := deduplicatePlans plans0, sourceURL := url,
          detectedPeriods := detectBillingPeriods (deduplicatePlans plans0),
          needsRender := true, renderUsed := false,
          warnings := warnings0 ++ ["toggle_detected_single_period"],
          error := "" } := by
  simp only [extractPricing, hv, hf, hllm, hbr, hnr, shouldUseBrowserRender,
    if_neg hlen, Bool.and_self, if_true]

/-- Companion to `extractPricing_stage3` for a failed browser pass: the
static result is kept and `browser_render_failed` is appended. -/
theorem extractPricing_stage3_err (env : ExtractEnv) (url vt rh : String)
    (plans0 : List ExtractedPlan) (warnings0 : List String) (e : String)
    (hv : validateURL url = none)
    (hf : fetchPageContent env.extractText env.httpResp = .ok (vt, rh))
    (hlen : ¬ vt.length < 100)
    (hllm : env.llmStatic = (plans0, warnings0, none))
    (hnr : needsRenderFlag (detectBillingToggle vt rh)
      (detectBillingPeriods (deduplicatePlans plans0)) = true)
    (hbr : extractWithBrowserRender env.browser = .error e) :
    extractPricing env url =
      { plans := deduplicatePlans plans0, sourceURL := url,
        detectedPeriods := detectBillingPeriods (deduplicatePlans plans0),
        needsRender := true, renderUsed := false,
        warnings := (warnings0 ++ ["toggle_detected_single_period"]) ++
          ["browser_render_failed"],
        error := "" } := by
  simp only [extractPricing, hv, hf, hllm, hbr, hnr, shouldUseBrowserRender,
    if_neg hlen, Bool.and_self, if_true]

/-! ## Concrete pipeline environments -/

/-- A pricing page text that is long enough to pass the length gate and
contains enough toggle indicators to fire the toggle detector. -/
def c3Page : String :=
  "Choose your plan today. Pay monthly or pay annually and save twenty percent on the Pro tier. All prices are shown in USD."

/-- Run in which the browser pass completes but is no better than the
static pass (same single plan, same single period). -/
def c3Env : ExtractEnv :=
  { httpResp := some ⟨200, c3Page⟩
    extractText := fun s => s
    llmStatic := ([mkPlan "Pro" "monthly"], [], none)
    browser :=
      { loadResult := some ("", c3Page)
        monthlyTab := ""
        yearlyTab := ""
        monthlyOutcomes := []
        yearlyOutcomes := []
        llm := ([mkPlan "Pro" "monthly"], [], none) } }

/-- Same discard-shaped run with a different static plan, used for the
C2 counterexample. -/
def c2Env : ExtractEnv :=
  { httpResp := some ⟨200, c3Page⟩
    extractText := fun s => s
    llmStatic := ([mkPlan "Team" "monthly"], [], none)
    browser :=
      { loadResult := some ("", c3Page)
        monthlyTab := ""
        yearlyTab := ""
        monthlyOutcomes := []
        yearlyOutcomes := []
        llm := ([mkPlan "Team" "monthly"], [], none) } }

/-- Run in which the browser pass finds strictly more plans than the
static pass (which found none), so its result is kept. -/
def c3wEnv : ExtractEnv :=
  { httpResp := some ⟨200, c3Page⟩
    extractText := fun s => s
    llmStatic := ([], [], none)
    browser :=
      { loadResult := some ("", c3Page)
        monthlyTab := ""
        yearlyTab := ""
        monthlyOutcomes := []
        yearlyOutcomes := []
        llm := ([mkPlan "Pro" "monthly"], [], none) } }

/-! ## C2 — browser result replaces static iff strictly better; no
fallback warning is appended on discard -/

/-- C2 counterexample: a run in which the browser pass completes
(`isOkE ... = true`) and is discarded as not strictly better, yet the
returned warnings are exactly the pre-browser list
`["toggle_detected_single_period"]` — no warning noting the fallback is
appended (the browser pass's own warnings are dropped as well), refuting
the claim's "a warning noting the fallback is appended". -/
theorem extractPricing_fallback_counterexample :
    isOkE (extractWithBrowserRender c2Env.browser) = true ∧
    extractPricing c2Env "https://example.com/pricing" =
      { plans := [mkPlan "Team" "monthly"],
        sourceURL := "https://example.com/pricing",
        detectedPeriods := ["monthly"], needsRender := true, renderUsed := false,
        warnings := ["toggle_detected_single_period"], error := "" } := by
  constructor
  · decide
  · decide

/-- C2 (amended): in every run reaching the browser stage whose browser
pass completes, its result replaces the static result exactly when it
yields strictly more plans or strictly more distinct billing periods;
when it does not, the static plans and periods are returned unchanged and
the warnings are exactly the pre-browser warnings — nothing is appended
on the fallback. -/
theorem extractPricing_browser_replacement (env : ExtractEnv) (url vt rh : String)
    (plans0 : List ExtractedPlan) (warnings0 : List String)
    (bp : List ExtractedPlan) (bper bw : List String)
    (hv : validateURL url = none)
    (hf : fetchPageContent env.extractText env.httpResp = .ok (vt, rh))
    (hlen : ¬ vt.length < 100)
    (hllm : env.llmStatic = (plans0, warnings0, none))
    (hnr : needsRenderFlag (detectBillingToggle vt rh)
      (detectBillingPeriods (deduplicatePlans plans0)) = true)
    (hbr : extractWithBrowserRender env.browser = .ok (bp, bper, bw)) :
    ((deduplicatePlans plans0).length < (deduplicatePlans bp).length ∨
        (detectBillingPeriods (deduplicatePlans plans0)).length < bper.length →
      extractPricing env url =
        { plans := deduplicatePlans bp, sourceURL := url,
          detectedPeriods := bper, needsRender := false, renderUsed := true,
          warnings := (warnings0 ++ ["toggle_detected_single_period"]) ++ bw,
          error := "" }) ∧
    (¬ ((deduplicatePlans plans0).length < (deduplicatePlans bp).length ∨
        (detectBillingPeriods (deduplicatePlans plans0)).length < bper.length) →
      extractPricing env url =
        { plans := deduplicatePlans plans0, sourceURL := url,
          detectedPeriods := detectBillingPeriods (deduplicatePlans plans0),
          needsRender := true, renderUsed := false,
          warnings := warnings0 ++ ["toggle_detected_single_period"],
          error := "" }) := by
  have h := extractPricing_stage3 env url vt rh plans0 warnings0 bp bper bw
    hv hf hlen hllm hnr hbr
  constructor
  · intro hc
    rw [h, if_pos hc]
  · intro hc
    rw [h, if_neg hc]

theorem extractPricing_browser_replacement_witness :
    extractPricing c2Env "https://example.com/pricing" =
      { plans := deduplicatePlans [mkPlan "Team" "monthly"],
        sourceURL := "https://example.com/pricing",
        detectedPeriods := detectBillingPeriods (deduplicatePlans [mkPlan "Team" "monthly"]),
        needsRender := true, renderUsed := false,
        warnings := [] ++ ["toggle_detected_single_period"], error := "" } :=
  (extractPricing_browser_replacement c2Env "https://example.com/pricing"
    c3Page c3Page [mkPlan "Team" "monthly"] [] [mkPlan "Team" "monthly"] ["monthly"]
    ["monthly_toggle_not_found", "yearly_toggle_not_found", "no_toggle_clicked"]
    (by decide) (by decide) (by decide) (by decide) (by decide) (by decide)).2
    (by decide)

/-! ## C3 — render_used records replacement, not attempt -/

/-- C3 counterexample: a run in which the browser pass is attempted (the
stage-3 guard holds and `shouldUseBrowserRender` is true) and completes,
but its result is discarded; the response nevertheless reports
`render_used = false`, refuting "render_used is true iff the
browser-assisted pass was attempted". -/
theorem extractPricing_renderUsed_counterexample :
    (needsRenderFlag (detectBillingToggle c3Page c3Page)
        (detectBillingPeriods (deduplicatePlans [mkPlan "Pro" "monthly"])) &&
      shouldUseBrowserRender) = true ∧
    isOkE (extractWithBrowserRender c3Env.browser) = true ∧
    (extractPricing c3Env "https://example.com/pricing").renderUsed = false := by
  refine ⟨by decide, by decide, ?_⟩
  decide

/-- C3 (amended): in every run reaching the browser stage, `render_used`
is true exactly when the browser pass's result replaced the static one
(strictly more plans or periods); an attempted pass that fails or whose
result is discarded leaves `render_used = false`. -/
theorem extractPricing_renderUsed_iff (env : ExtractEnv) (url vt rh : String)
    (plans0 : List ExtractedPlan) (warnings0 : List String)
    (hv : validateURL url = none)
    (hf : fetchPageContent env.extractText env.httpResp = .ok (vt, rh))
    (hlen : ¬ vt.length < 100)
    (hllm : env.llmStatic = (plans0, warnings0, none))
    (hnr : needsRenderFlag (detectBillingToggle vt rh)
      (detectBillingPeriods (deduplicatePlans plans0)) = true) :
    (∀ bp bper bw, extractWithBrowserRender env.browser = .ok (bp, bper, bw) →
      ((extractPricing env url).renderUsed = true ↔
        ((deduplicatePlans plans0).length < (deduplicatePlans bp).length ∨
          (detectBillingPeriods (deduplicatePlans plans0)).length < bper.length))) ∧
    (∀ e, extractWithBrowserRender env.browser = .error e →
      (extractPricing env url).renderUsed = false) := by
  constructor
  · intro bp bper bw hbr
    rw [extractPricing_stage3 env url vt rh plans0 warnings0 bp bper bw
      hv hf hlen hllm hnr hbr]
    split
    · rename_i hc
      exact iff_of_true rfl hc
    · rename_i hc
      exact iff_of_false (by simp) hc
  · intro e hbr
    rw [extractPricing_stage3_err env url vt rh plans0 warnings0 e
      hv hf hlen hllm hnr hbr]

theorem extractPricing_renderUsed_iff_witness :
    (extractPricing c3wEnv "https://example.com/pricing").renderUsed = true :=
  ((extractPricing_renderUsed_iff c3wEnv "https://example.com/pricing"
      c3Page c3Page [] []
      (by decide) (by decide) (by decide) (by decide) (by decide)).1
    [mkPlan "Pro" "monthly"] ["monthly"]
    ["monthly_toggle_not_found", "yearly_toggle_not_found", "no_toggle_clicked"]
    (by decide)).mpr (by decide)

/-! ## C8 — a no-op click is not registered as a state change -/

/-- C8: when both capture attempts after clicking return text identical
to the pre-click text, with no billing-specific indicator phrase for the
clicked side present, no ARIA-selected change and no URL change, then
`verifyStateChange` returns false, `clickTabWithVerification` reports
failure after its 2 attempts, and the browser pass records the
corresponding `monthly_toggle_failed` and `yearly_toggle_failed`
warnings (plus `no_toggle_clicked`) before the LLM warnings. -/
theorem clickVerification_noop_click
    (prev dh mh yh mt yt : String) (pm1 pm2 py1 py2 : VerifyProbes)
    (llmPlans : List ExtractedPlan) (llmW : List String)
    (hmt : mt ≠ "") (hyt : yt ≠ "")
    (hmInd : ∀ ind ∈ monthlyIndicators, goContains (goToLower prev) ind = false)
    (hyInd : ∀ ind ∈ yearlyIndicators, goContains (goToLower prev) ind = false)
    (hm1a : pm1.ariaMatchesClicked = false)
    (hm1u : goContains (goToLower pm1.currentURL) "monthly" = false)
    (hm2a : pm2.ariaMatchesClicked = false)
    (hm2u : goContains (goToLower pm2.currentURL) "monthly" = false)
    (hy1a : py1.ariaMatchesClicked = false)
    (hy1u : goContains (goToLower py1.currentURL) "yearly" = false)
    (hy2a : py2.ariaMatchesClicked = false)
    (hy2u : goContains (goToLower py2.currentURL) "yearly" = false) :
    verifyStateChange pm1 prev prev "monthly" = false ∧
    clickTabWithVerification [.captured mh prev pm1, .captured mh prev pm2]
      "monthly" prev = (false, "", "") ∧
    extractWithBrowserRender
      { loadResult := some (dh, prev), monthlyTab := mt, yearlyTab := yt,
        monthlyOutcomes := [.captured mh prev pm1, .captured mh prev pm2],
        yearlyOutcomes := [.captured yh prev py1, .captured yh prev py2],
        llm := (llmPlans, llmW, none) } =
      .ok (deduplicatePlans llmPlans,
        detectBillingPeriods (deduplicatePlans llmPlans),
        "monthly_toggle_failed" :: "yearly_toggle_failed" ::
          "no_toggle_clicked" :: llmW) := by
  have hver : ∀ (p : VerifyProbes) (bt : String), bt = "monthly" ∨ bt = "yearly" →
      p.ariaMatchesClicked = false → goContains (goToLower p.currentURL) bt = false →
      verifyStateChange p prev prev bt = false := by
    intro p bt hbt ha hu
    unfold verifyStateChange
    rw [if_neg (by simp)]
    rcases hbt with rfl | rfl
    · have hany : monthlyIndicators.any
          (fun ind => goContains (goToLower prev) ind) = false := by
        rw [List.any_eq_false]
        intro x hx
        simp [hmInd x hx]
      rw [if_pos rfl, hany, ha, hu]
      rfl
    · have hany : yearlyIndicators.any
          (fun ind => goContains (goToLower prev) ind) = false := by
        rw [List.any_eq_false]
        intro x hx
        simp [hyInd x hx]
      rw [if_neg (by decide), if_pos rfl, hany, ha, hu]
      rfl
  have hmc : clickTabWithVerification [.captured mh prev pm1, .captured mh prev pm2]
      "monthly" prev = (false, "", "") := by
    simp only [clickTabWithVerification, clickLoop,
      hver pm1 "monthly" (Or.inl rfl) hm1a hm1u,
      hver pm2 "monthly" (Or.inl rfl) hm2a hm2u,
      Bool.false_eq_true, if_false]
  have hyc : clickTabWithVerification [.captured yh prev py1, .captured yh prev py2]
      "yearly" prev = (false, "", "") := by
    simp only [clickTabWithVerification, clickLoop,
      hver py1 "yearly" (Or.inr rfl) hy1a hy1u,
      hver py2 "yearly" (Or.inr rfl) hy2a hy2u,
      Bool.false_eq_true, if_false]
  refine ⟨hver pm1 "monthly" (Or.inl rfl) hm1a hm1u, hmc, ?_⟩
  simp only [extractWithBrowserRender, if_pos hmt, if_pos hyt, hmc, hyc]
  simp

theorem clickVerification_noop_click_witness :
    verifyStateChange ⟨false, "https://example.com/pricing"⟩
      "Same plans page shown twice with identical copy."
      "Same plans page shown twice with identical copy." "monthly" = false ∧
    clickTabWithVerification
      [.captured "<html>" "Same plans page shown twice with identical copy."
        ⟨false, "https://example.com/pricing"⟩,
       .captured "<html>" "Same plans page shown twice with identical copy."
        ⟨false, "https://example.com/pricing"⟩] "monthly"
      "Same plans page shown twice with identical copy." = (false, "", "") ∧
    extractWithBrowserRender
      { loadResult := some ("<html>", "Same plans page shown twice with identical copy.")
        monthlyTab := "button:nth-of-type(1)"
        yearlyTab := "button:nth-of-type(2)"
        monthlyOutcomes :=
          [.captured "<html>" "Same plans page shown twice with identical copy."
            ⟨false, "https://example.com/pricing"⟩,
           .captured "<html>" "Same plans page shown twice with identical copy."
            ⟨false, "https://example.com/pricing"⟩]
        yearlyOutcomes :=
          [.captured "<html>" "Same plans page shown twice with identical copy."
            ⟨false, "https://example.com/pricing"⟩,
           .captured "<html>" "Same plans page shown twice with identical copy."
            ⟨false, "https://example.com/pricing"⟩]
        llm := ([], [], none) } =
      .ok (deduplicatePlans [], detectBillingPeriods (deduplicatePlans []),
        "monthly_toggle_failed" :: "yearly_toggle_failed" ::
          "no_toggle_clicked" :: []) :=
  clickVerification_noop_click
    "Same plans page shown twice with identical copy." "<html>" "<html>" "<html>"
    "button:nth-of-type(1)" "button:nth-of-type(2)"
    ⟨false, "https://example.com/pricing"⟩ ⟨false, "https://example.com/pricing"⟩
    ⟨false, "https://example.com/pricing"⟩ ⟨false, "https://example.com/pricing"⟩
    [] []
    (by decide) (by decide) (by decide) (by decide)
    (by decide) (by decide) (by decide) (by decide)
    (by decide) (by decide) (by decide) (by decide)

/-! ## C4 — deduplication is idempotent -/

/-- Merging never touches the fields the canonical key is built from. -/
theorem canonicalPlanKey_mergePlans (a b : ExtractedPlan) :
    canonicalPlanKey (mergePlans a b) = canonicalPlanKey a := rfl

/-- Well-formedness of the deduplication association list: every entry
is keyed by its plan's canonical key, and keys are pairwise distinct. -/
def accWF (acc : List (String × ExtractedPlan)) : Prop :=
  (∀ pr ∈ acc, canonicalPlanKey pr.2 = pr.1) ∧ (acc.map Prod.fst).Nodup

theorem assocUpdate_keys (k : String) (p : ExtractedPlan) :
    ∀ acc, (assocUpdate acc k p).map Prod.fst =
      if k ∈ acc.map Prod.fst then acc.map Prod.fst else acc.map Prod.fst ++ [k]
  | [] => by simp [assocUpdate]
  | (k1, p1) :: rest => by
    by_cases hk : k1 = k
    · subst hk
      rw [assocUpdate, if_pos rfl]
      simp
    · rw [assocUpdate, if_neg hk]
      have ih := assocUpdate_keys k p rest
      by_cases hmem : k ∈ rest.map Prod.fst
      · simp only [List.map_cons, ih, if_pos hmem]
        rw [if_pos (List.mem_cons_of_mem _ hmem)]
      · simp only [List.map_cons, ih, if_neg hmem]
        rw [if_neg (by
          intro hc
          rcases List.mem_cons.mp hc with he | hm
          · exact hk he.symm
          · exact hmem hm)]
        simp

theorem assocUpdate_not_mem (k : String) (p : ExtractedPlan) :
    ∀ acc, k ∉ acc.map Prod.fst → assocUpdate acc k p = acc ++ [(k, p)]
  | [], _ => rfl
  | (k1, p1) :: rest, h => by
    have hk : k1 ≠ k := by
      intro he
      exact h (by simp [he])
    rw [assocUpdate, if_neg hk, assocUpdate_not_mem k p rest (by
      intro hm
      exact h (List.mem_cons_of_mem _ hm))]
    rfl

theorem assocUpdate_wf (acc : List (String × ExtractedPlan)) (k : String)
    (p : ExtractedPlan) (hwf : accWF acc) (hkp : canonicalPlanKey p = k) :
    accWF (assocUpdate acc k p) := by
  induction acc with
  | nil =>
    exact ⟨by simp [assocUpdate, hkp], by simp [assocUpdate]⟩
  | cons pr rest ih =>
    obtain ⟨k1, p1⟩ := pr
    have hwfRest : accWF rest :=
      ⟨fun q hq => hwf.1 q (List.mem_cons_of_mem _ hq),
       (List.nodup_cons.mp (by simpa using hwf.2)).2⟩
    by_cases hk : k1 = k
    · subst hk
      rw [assocUpdate, if_pos rfl]
      refine ⟨?_, by simpa using hwf.2⟩
      intro q hq
      rcases List.mem_cons.mp hq with he | hm
      · subst he
        show canonicalPlanKey (mergePlans p1 p) = k1
        rw [canonicalPlanKey_mergePlans]
        exact hwf.1 (k1, p1) (List.mem_cons_self _ _)
      · exact hwf.1 q (List.mem_cons_of_mem _ hm)
    · rw [assocUpdate, if_neg hk]
      have ihr := ih hwfRest
      refine ⟨?_, ?_⟩
      · intro q hq
        rcases List.mem_cons.mp hq with he | hm
        · subst he
          exact hwf.1 (k1, p1) (List.mem_cons_self _ _)
        · exact ihr.1 q hm
      · simp only [List.map_cons, List.nodup_cons]
        refine ⟨?_, ihr.2⟩
        rw [assocUpdate_keys]
        have hk1 : k1 ∉ rest.map Prod.fst :=
          (List.nodup_cons.mp (by simpa using hwf.2)).1
        by_cases hmem : k ∈ rest.map Prod.fst
        · rw [if_pos hmem]
          exact hk1
        · rw [if_neg hmem]
          intro hc
          rcases List.mem_append.mp hc with hm | hm
          · exact hk1 hm
          · exact hk (List.mem_singleton.mp hm)

theorem dedupFoldl_wf (plans : List ExtractedPlan) :
    ∀ acc, accWF acc → accWF (plans.foldl dedupFold acc) := by
  induction plans with
  | nil => exact fun acc h => h
  | cons p rest ih =>
    intro acc hacc
    rw [List.foldl_cons]
    exact ih _ (assocUpdate_wf acc (canonicalPlanKey p) p hacc rfl)

/-- Folding a list whose canonical keys are fresh and pairwise distinct
just appends the keyed entries in order. -/
theorem dedupFoldl_fresh (l : List ExtractedPlan) :
    ∀ acc, (∀ p ∈ l, canonicalPlanKey p ∉ acc.map Prod.fst) →
      (l.map canonicalPlanKey).Nodup →
      l.foldl dedupFold acc = acc ++ l.map (fun p => (canonicalPlanKey p, p)) := by
  induction l with
  | nil => simp
  | cons p rest ih =>
    intro acc hdisj hnd
    rw [List.foldl_cons]
    have hstep : dedupFold acc p = acc ++ [(canonicalPlanKey p, p)] :=
      assocUpdate_not_mem _ p acc (hdisj p (List.mem_cons_self _ _))
    rw [hstep, ih (acc ++ [(canonicalPlanKey p, p)]) ?_ ?_]
    · simp
    · intro q hq
      simp only [List.map_append, List.map_cons, List.map_nil]
      intro hc
      rcases List.mem_append.mp hc with hm | hm
      · exact hdisj q (List.mem_cons_of_mem _ hq) hm
      · have hkq : canonicalPlanKey q = canonicalPlanKey p := by simpa using hm
        have hpnotin : canonicalPlanKey p ∉ rest.map canonicalPlanKey :=
          (List.nodup_cons.mp (by simpa using hnd)).1
        exact hpnotin (hkq ▸ List.mem_map_of_mem canonicalPlanKey hq)
    · exact (List.nodup_cons.mp (by simpa using hnd)).2

/-- The canonical keys of the merged map values are pairwise distinct. -/
theorem foldValues_key_nodup (plans : List ExtractedPlan) :
    (((plans.foldl dedupFold []).map Prod.snd).map canonicalPlanKey).Nodup := by
  have hwf : accWF (plans.foldl dedupFold []) :=
    dedupFoldl_wf plans [] ⟨by simp, by simp⟩
  have hkeys : ((plans.foldl dedupFold []).map Prod.snd).map canonicalPlanKey =
      (plans.foldl dedupFold []).map Prod.fst := by
    rw [List.map_map]
    exact List.map_congr_left (fun pr hpr => hwf.1 pr hpr)
  rw [hkeys]
  exact hwf.2

/-- A list whose canonical keys are pairwise distinct is left unchanged
by the dedup fold: each plan lands under a fresh key. -/
theorem foldValues_of_key_nodup (l : List ExtractedPlan)
    (h : (l.map canonicalPlanKey).Nodup) :
    (l.foldl dedupFold []).map Prod.snd = l := by
  rw [dedupFoldl_fresh l [] (by simp) h, List.nil_append, List.map_map]
  have hcomp : (Prod.snd ∘ fun p : ExtractedPlan => (canonicalPlanKey p, p)) = id :=
    funext fun p => rfl
  rw [hcomp, List.map_id]

theorem deduplicatePlans_small (l : List ExtractedPlan) (h : l.length ≤ 1) :
    deduplicatePlans l = l := by
  unfold deduplicatePlans
  rw [if_pos h]

theorem deduplicatePlans_big (l : List ExtractedPlan) (h : ¬ l.length ≤ 1) :
    deduplicatePlans l =
      List.insertionSort planOrder ((l.foldl dedupFold []).map Prod.snd) := by
  unfold deduplicatePlans
  rw [if_neg h]

/-- The set of lists the Go `deduplicatePlans` may return.  Two steps of
the source are genuinely nondeterministic: the `for _, p := range seen`
collection of map values visits the map in a randomized order, and
`sort.Slice` is explicitly unstable.  The multiset of merged values is
determined, so for more than one input plan the possible outputs are
exactly the `planOrder`-sorted permutations of the merged map values
(with at most one plan the slice is returned as is). -/
def dedupResult (plans out : List ExtractedPlan) : Prop :=
  if plans.length ≤ 1 then out = plans
  else out.Perm ((plans.foldl dedupFold []).map Prod.snd) ∧
    List.Sorted planOrder out

instance (plans out : List ExtractedPlan) : Decidable (dedupResult plans out) := by
  unfold dedupResult
  infer_instance

/-- The deterministic model (insertion-ordered map, stable sort) picks
one of the results the nondeterministic source may return. -/
theorem deduplicatePlans_realizes (plans : List ExtractedPlan) :
    dedupResult plans (deduplicatePlans plans) := by
  unfold dedupResult
  by_cases hp : plans.length ≤ 1
  · rw [if_pos hp, deduplicatePlans_small plans hp]
  · rw [if_neg hp, deduplicatePlans_big plans hp]
    exact ⟨List.perm_insertionSort planOrder _, List.sorted_insertionSort planOrder _⟩

/-- Any possible output of a pass over more than one plan has pairwise
distinct canonical keys. -/
theorem dedupResult_key_nodup (plans out : List ExtractedPlan)
    (h : dedupResult plans out) (hbig : ¬ plans.length ≤ 1) :
    (out.map canonicalPlanKey).Nodup := by
  unfold dedupResult at h
  rw [if_neg hbig] at h
  exact (h.1.map canonicalPlanKey).nodup_iff.mpr (foldValues_key_nodup plans)

/-- Two plans sharing a name and billing period whose canonical keys
differ in the price component: both survive deduplication yet tie under
the `(name, billing_period)` comparator. -/
def planTen : ExtractedPlan := { mkPlan "Pro" "monthly" with priceString := "$10/mo" }

def planTwenty : ExtractedPlan := { mkPlan "Pro" "monthly" with priceString := "$20/mo" }

/-- C4 counterexample: list-level idempotence
`deduplicatePlans (deduplicatePlans P) = deduplicatePlans P` is not a
guarantee of the source.  `planTen` and `planTwenty` have distinct
canonical keys, so both survive a pass, and they tie under the
`(name, billing_period)` comparator; randomized map iteration plus the
unstable `sort.Slice` may return them in either order, so a first pass
may legally return `[planTen, planTwenty]` and a second pass on that
very output may legally return them reversed. -/
theorem dedup_reorder_counterexample :
    dedupResult [planTen, planTwenty] [planTen, planTwenty] ∧
    dedupResult [planTen, planTwenty] [planTwenty, planTen] ∧
    [planTwenty, planTen] ≠ [planTen, planTwenty] := by
  have he : (List.foldl dedupFold [] [planTen, planTwenty]).map Prod.snd
      = [planTen, planTwenty] := by decide
  refine ⟨?_, ?_, by decide⟩
  · unfold dedupResult
    rw [if_neg (by decide), he]
    exact ⟨List.Perm.refl _, by decide⟩
  · unfold dedupResult
    rw [if_neg (by decide), he]
    exact ⟨List.Perm.swap _ _ [], by decide⟩

/-- C4 (amended): deduplication is idempotent as the nondeterministic
function the source implements — the possible results of running
`deduplicatePlans` twice on a plan list are exactly the possible
results of running it once.  A second pass merges nothing (every
surviving plan has a distinct canonical key) and can only reorder
plans that tie on (name, billing_period); list equality on the nose
can fail, see the counterexample. -/
theorem dedupResult_idempotent (plans out : List ExtractedPlan) :
    (∃ mid, dedupResult plans mid ∧ dedupResult mid out) ↔
      dedupResult plans out := by
  constructor
  · rintro ⟨mid, h1, h2⟩
    by_cases hp : plans.length ≤ 1
    · unfold dedupResult at h1
      rw [if_pos hp] at h1
      subst h1
      exact h2
    · by_cases hm : mid.length ≤ 1
      · unfold dedupResult at h2
        rw [if_pos hm] at h2
        subst h2
        exact h1
      · have hnd : (mid.map canonicalPlanKey).Nodup :=
          dedupResult_key_nodup plans mid h1 hp
        have hVmid : (mid.foldl dedupFold []).map Prod.snd = mid :=
          foldValues_of_key_nodup mid hnd
        unfold dedupResult at h1 h2 ⊢
        rw [if_neg hp] at h1
        rw [if_neg hm] at h2
        rw [if_neg hp]
        rw [hVmid] at h2
        exact ⟨h2.1.trans h1.1, h2.2⟩
  · intro h
    refine ⟨out, h, ?_⟩
    by_cases ho : out.length ≤ 1
    · unfold dedupResult
      rw [if_pos ho]
    · have hp : ¬ plans.length ≤ 1 := by
        intro hp
        have h2 := h
        unfold dedupResult at h2
        rw [if_pos hp] at h2
        subst h2
        exact ho hp
      have hnd : (out.map canonicalPlanKey).Nodup :=
        dedupResult_key_nodup plans out h hp
      unfold dedupResult at h ⊢
      rw [if_neg hp] at h
      rw [if_neg ho]
      refine ⟨?_, h.2⟩
      rw [foldValues_of_key_nodup out hnd]

/-! ## C5 — deduplication and the "unknown billing carries no monthly
equivalent" invariant -/

/-- The data-model condition from §3: a plan whose billing period is
`"unknown"` (or empty, which the canonical key treats the same way)
carries no monthly equivalent amount (Go zero value). -/
def unknownNoEquiv (p : ExtractedPlan) : Prop :=
  p.billingPeriod = "unknown" ∨ p.billingPeriod = "" → p.monthlyEquivalentAmount = 0

instance (p : ExtractedPlan) : Decidable (unknownNoEquiv p) := by
  unfold unknownNoEquiv
  infer_instance

/-- The data-model domain of `billing_period` (§3: monthly, yearly,
unknown — with the empty string as the Go zero value). -/
def billingDomain (p : ExtractedPlan) : Prop :=
  p.billingPeriod = "monthly" ∨ p.billingPeriod = "yearly" ∨
    p.billingPeriod = "unknown" ∨ p.billingPeriod = ""

instance (p : ExtractedPlan) : Decidable (billingDomain p) := by
  unfold billingDomain
  infer_instance

theorem digitChar_ne_bar : ∀ n, n < 10 → digitChar n ≠ '|' := by decide

theorem natDigitsFuel_ne_bar : ∀ fuel n, ∀ c ∈ natDigitsFuel fuel n, c ≠ '|'
  | 0, n => by simp [natDigitsFuel]
  | fuel + 1, n => by
    intro c hc
    simp only [natDigitsFuel] at hc
    split at hc
    · rename_i h
      rcases List.mem_singleton.mp hc with rfl
      exact digitChar_ne_bar n h
    · rcases List.mem_append.mp hc with h1 | h1
      · exact natDigitsFuel_ne_bar fuel (n / 10) c h1
      · rcases List.mem_singleton.mp h1 with rfl
        exact digitChar_ne_bar _ (Nat.mod_lt _ (by norm_num))

theorem fmtTwoDec_ne_bar (q : ℚ) : '|' ∉ (fmtTwoDec q).data := by
  intro hc
  simp only [fmtTwoDec, natStr, String.data_append, List.mem_append] at hc
  rcases hc with (((h | h) | h) | h) | h
  · revert h
    split
    · intro h
      exact absurd h (by decide)
    · intro h
      exact absurd h (by decide)
  · exact natDigitsFuel_ne_bar _ _ '|' h rfl
  · exact absurd h (by decide)
  · revert h
    split
    · intro h
      exact absurd h (by decide)
    · intro h
      exact absurd h (by decide)
  · exact natDigitsFuel_ne_bar _ _ '|' h rfl

theorem numMatchAt_chars (l m : List Char) (h : numMatchAt l = some m) :
    ∀ c ∈ m, isDigitOrComma c = true ∨ c = '.' := by
  unfold numMatchAt at h
  dsimp only at h
  split at h
  · exact absurd h (by simp)
  · split at h
    · rcases Option.some.injEq _ _ ▸ h with rfl
      intro c hc
      rcases List.mem_append.mp hc with h1 | h1
      · exact Or.inl (List.mem_takeWhile_imp h1)
      · rcases List.mem_cons.mp h1 with rfl | h2
        · exact Or.inr rfl
        · exact Or.inl (by simp [isDigitOrComma, List.mem_takeWhile_imp h2])
    · rcases Option.some.injEq _ _ ▸ h with rfl
      intro c hc
      exact Or.inl (List.mem_takeWhile_imp hc)

theorem findFirstNumber_chars : ∀ l m, findFirstNumber l = some m →
    ∀ c ∈ m, isDigitOrComma c = true ∨ c = '.'
  | [], m, h => by simp [findFirstNumber] at h
  | a :: rest, m, h => by
    simp only [findFirstNumber] at h
    cases hma : numMatchAt (a :: rest) with
    | some m2 =>
      rw [hma] at h
      rcases Option.some.injEq _ _ ▸ h with rfl
      exact numMatchAt_chars _ _ hma
    | none =>
      rw [hma] at h
      exact findFirstNumber_chars rest m h

theorem goPriceKey_ne_bar (p : ExtractedPlan) : '|' ∉ (goPriceKey p).data := by
  unfold goPriceKey
  split
  · exact fmtTwoDec_ne_bar _
  · split
    · cases hm : findFirstNumber p.priceString.data with
      | some m =>
        intro hc
        replace hc : '|' ∈ m.filter (fun ch => decide (ch ≠ ',')) := hc
        rcases findFirstNumber_chars _ _ hm '|' (List.mem_filter.mp hc).1 with h3 | h3
        · exact absurd h3 (by decide)
        · exact absurd h3 (by decide)
      | none =>
        exact List.not_mem_nil '|' 
    · simp

/-- Splitting at the first separator is unambiguous when neither prefix
contains the separator. -/
theorem sepSplitOnce : ∀ (x1 x2 r1 r2 : List Char), '|' ∉ x1 → '|' ∉ x2 →
    x1 ++ '|' :: r1 = x2 ++ '|' :: r2 → x1 = x2 ∧ r1 = r2
  | [], [], r1, r2, _, _, h => ⟨rfl, by simpa using h⟩
  | [], c :: x2, r1, r2, _, h2, h => by
    injection h with h1 _
    subst h1
    exact absurd (List.mem_cons_self _ _) h2
  | c :: x1, [], r1, r2, h1, _, h => by
    injection h with hh _
    subst hh
    exact absurd (List.mem_cons_self _ _) h1
  | c :: x1, d :: x2, r1, r2, h1, h2, h => by
    injection h with hh ht
    subst hh
    obtain ⟨e1, e2⟩ := sepSplitOnce x1 x2 r1 r2
      (fun hm => h1 (List.mem_cons_of_mem _ hm))
      (fun hm => h2 (List.mem_cons_of_mem _ hm)) ht
    exact ⟨by rw [e1], e2⟩

theorem key_data (p : ExtractedPlan) : (canonicalPlanKey p).data =
    (canonicalName p).data ++ '|' ::
      ((canonicalBilling p).data ++ '|' :: (goPriceKey p).data) := by
  have hbar : ("|" : String).data = ['|'] := rfl
  simp only [canonicalPlanKey, String.data_append, hbar, List.append_assoc,
    List.singleton_append, List.cons_append, List.nil_append]

/-- Equal canonical keys force equal billing components, provided the
billing components are separator-free. -/
theorem canonicalPlanKey_eq_billing {a b : ExtractedPlan}
    (hba : '|' ∉ (canonicalBilling a).data) (hbb : '|' ∉ (canonicalBilling b).data)
    (h : canonicalPlanKey a = canonicalPlanKey b) :
    canonicalBilling a = canonicalBilling b := by
  have hd := congrArg String.data h
  rw [key_data, key_data] at hd
  have hr := congrArg List.reverse hd
  simp only [List.reverse_append, List.reverse_cons, List.append_assoc,
    List.singleton_append] at hr
  obtain ⟨_, hrest⟩ := sepSplitOnce _ _ _ _
    (by simpa using goPriceKey_ne_bar a) (by simpa using goPriceKey_ne_bar b) hr
  obtain ⟨hb, _⟩ := sepSplitOnce _ _ _ _
    (by simpa using hba) (by simpa using hbb) hrest
  exact String.ext (List.reverse_injective hb)

theorem canonicalBilling_unknown_of (p : ExtractedPlan)
    (h : p.billingPeriod = "unknown" ∨ p.billingPeriod = "") :
    canonicalBilling p = "unknown" := by
  rcases h with h | h
  · unfold canonicalBilling
    rw [h]
    decide
  · unfold canonicalBilling
    rw [h]
    decide

theorem billing_unknown_of_canonical (p : ExtractedPlan) (hd : billingDomain p)
    (h : canonicalBilling p = "unknown") :
    p.billingPeriod = "unknown" ∨ p.billingPeriod = "" := by
  rcases hd with h1 | h1 | h1 | h1
  · exfalso
    unfold canonicalBilling at h
    rw [h1] at h
    exact absurd h (by decide)
  · exfalso
    unfold canonicalBilling at h
    rw [h1] at h
    exact absurd h (by decide)
  · exact Or.inl h1
  · exact Or.inr h1

theorem canonicalBilling_ne_bar (p : ExtractedPlan) (hd : billingDomain p) :
    '|' ∉ (canonicalBilling p).data := by
  rcases hd with h | h | h | h <;>
    (unfold canonicalBilling; rw [h]; decide)

/-- Merging two equal-key plans from the billing domain preserves both
the domain and the unknown-no-equivalent condition. -/
theorem mergePlans_ok (e p : ExtractedPlan)
    (he : unknownNoEquiv e ∧ billingDomain e)
    (hp : unknownNoEquiv p ∧ billingDomain p)
    (hkey : canonicalPlanKey e = canonicalPlanKey p) :
    unknownNoEquiv (mergePlans e p) ∧ billingDomain (mergePlans e p) := by
  constructor
  · intro hb
    have hb2 : e.billingPeriod = "unknown" ∨ e.billingPeriod = "" := hb
    have hee : e.monthlyEquivalentAmount = 0 := he.1 hb2
    have hbe : canonicalBilling e = "unknown" := canonicalBilling_unknown_of e hb2
    have hbp : canonicalBilling p = "unknown" := by
      rw [← canonicalPlanKey_eq_billing (canonicalBilling_ne_bar e he.2)
        (canonicalBilling_ne_bar p hp.2) hkey]
      exact hbe
    have hpe : p.monthlyEquivalentAmount = 0 :=
      hp.1 (billing_unknown_of_canonical p hp.2 hbp)
    show (if e.monthlyEquivalentAmount = 0 ∧ 0 < p.monthlyEquivalentAmount
      then p.monthlyEquivalentAmount else e.monthlyEquivalentAmount) = 0
    rw [if_neg (by rw [hpe]; simp), hee]
  · exact he.2

/-- Invariant carried by every association-list entry during folding. -/
def entryOK (pr : String × ExtractedPlan) : Prop :=
  unknownNoEquiv pr.2 ∧ billingDomain pr.2 ∧ canonicalPlanKey pr.2 = pr.1

theorem assocUpdate_entryOK (k : String) (p : ExtractedPlan) :
    ∀ acc, (∀ pr ∈ acc, entryOK pr) →
      unknownNoEquiv p → billingDomain p → canonicalPlanKey p = k →
      ∀ pr ∈ assocUpdate acc k p, entryOK pr
  | [], _, hu, hd, hk => by
    intro pr hpr
    rcases List.mem_singleton.mp hpr with rfl
    exact ⟨hu, hd, hk⟩
  | (k1, p1) :: rest, hacc, hu, hd, hk => by
    by_cases he : k1 = k
    · subst he
      rw [assocUpdate, if_pos rfl]
      intro pr hpr
      rcases List.mem_cons.mp hpr with rfl | hm
      · have h1 := hacc (k1, p1) (List.mem_cons_self _ _)
        have hm2 := mergePlans_ok p1 p ⟨h1.1, h1.2.1⟩ ⟨hu, hd⟩
          (h1.2.2.trans hk.symm)
        exact ⟨hm2.1, hm2.2, by rw [canonicalPlanKey_mergePlans]; exact h1.2.2⟩
      · exact hacc _ (List.mem_cons_of_mem _ hm)
    · rw [assocUpdate, if_neg he]
      intro pr hpr
      rcases List.mem_cons.mp hpr with rfl | hm
      · exact hacc _ (List.mem_cons_self _ _)
      · exact assocUpdate_entryOK k p rest
          (fun q hq => hacc q (List.mem_cons_of_mem _ hq)) hu hd hk pr hm

theorem dedupFoldl_entryOK (plans : List ExtractedPlan)
    (hdom : ∀ p ∈ plans, billingDomain p)
    (hinv : ∀ p ∈ plans, unknownNoEquiv p) :
    ∀ acc, (∀ pr ∈ acc, entryOK pr) →
      ∀ pr ∈ plans.foldl dedupFold acc, entryOK pr := by
  induction plans with
  | nil => exact fun acc hacc => hacc
  | cons p rest ih =>
    intro acc hacc
    rw [List.foldl_cons]
    exact ih (fun q hq => hdom q (List.mem_cons_of_mem _ hq))
      (fun q hq => hinv q (List.mem_cons_of_mem _ hq))
      (dedupFold acc p)
      (assocUpdate_entryOK (canonicalPlanKey p) p acc hacc
        (hinv p (List.mem_cons_self _ _)) (hdom p (List.mem_cons_self _ _)) rfl)

/-- C5 (amended): over plan lists whose billing periods lie in the data
model's domain (monthly/yearly/unknown/empty), deduplication preserves
the invariant that a plan with `billing_period` `"unknown"` (or empty)
carries no `monthly_equivalent_amount`. -/
theorem dedup_preserves_unknownNoEquiv (plans : List ExtractedPlan)
    (hdom : ∀ p ∈ plans, billingDomain p)
    (hinv : ∀ p ∈ plans, unknownNoEquiv p) :
    ∀ p ∈ deduplicatePlans plans, unknownNoEquiv p := by
  by_cases h1 : plans.length ≤ 1
  · rw [deduplicatePlans_small _ h1]
    exact hinv
  · rw [deduplicatePlans_big _ h1]
    intro p hp
    rw [List.mem_insertionSort] at hp
    obtain ⟨pr, hpr, rfl⟩ := List.mem_map.mp hp
    exact (dedupFoldl_entryOK plans hdom hinv [] (by simp) pr hpr).1

theorem dedup_preserves_unknownNoEquiv_witness :
    ((deduplicatePlans
        [mkPlan "Pro" "unknown", mkPlan "Pro" "", mkPlan "Team" "yearly"]).all
      fun p => decide (unknownNoEquiv p)) = true := by
  rw [List.all_eq_true]
  intro p hp
  exact decide_eq_true
    (dedup_preserves_unknownNoEquiv
      [mkPlan "Pro" "unknown", mkPlan "Pro" "", mkPlan "Team" "yearly"]
      (by decide) (by decide) p hp)

/-- C5 counterexample: the claim as stated quantifies over every input
list of `ExtractedPlan` records and restricts only plans whose
billing_period is literally `"unknown"` (or empty).  A plan whose billing
period is `"UNKNOWN"` escapes the hypothesis, yet shares its canonical
key (billing is lower-cased in the key) with a literal `"unknown"` plan;
the merge then copies its positive `monthly_equivalent_amount` onto the
surviving record, whose billing period is `"unknown"` — the output
violates the condition although the input satisfied it. -/
theorem dedup_unknownNoEquiv_counterexample :
    (∀ p ∈ [mkPlan "Pro" "unknown",
        { mkPlan "Pro" "UNKNOWN" with monthlyEquivalentAmount := 5 }],
      unknownNoEquiv p) ∧
    ¬ (∀ p ∈ deduplicatePlans [mkPlan "Pro" "unknown",
        { mkPlan "Pro" "UNKNOWN" with monthlyEquivalentAmount := 5 }],
      unknownNoEquiv p) := by
  constructor
  · decide
  · decide

/-! ## C1 — the SSRF guard `validateURL` -/

/-- The spec's notion of an unsafe address, written with explicit
numeric ranges: IPv4 loopback `127/8`, private `10/8`, `172.16/12`,
`192.168/16`, link-local `169.254/16`; IPv6 loopback `::1`, unique-local
`fc00::/7`, link-local `fe80::/10`. -/
def specUnsafeIP : IPAddr → Bool
  | .v4 a b _ _ =>
    a = 127 ||
    (a = 10 || (a = 172 && (16 ≤ b && b ≤ 31)) || (a = 192 && b = 168)) ||
    (a = 169 && b = 254)
  | .v6 gs =>
    gs = [0, 0, 0, 0, 0, 0, 0, 1] ||
    (match gs.head? with
     | some g => (64512 ≤ g && g ≤ 65023) || (65152 ≤ g && g ≤ 65215)
     | none => false)

/-- The claim's rejection predicate: scheme outside http/https, the
`localhost` name, an unsafe IP literal, or — per the spec's conservative
SSRF stance — any host that cannot be classified as public without DNS
resolution (i.e. any non-IP-literal host name). -/
def specRejects (s : String) : Bool :=
  match parseURL s with
  | none => true
  | some u =>
    if u.scheme ≠ "http" ∧ u.scheme ≠ "https" then true
    else
      let host := hostnameOf u.host
      if host = "localhost" then true
      else
        match parseIP host with
        | some ip => specUnsafeIP ip
        | none => true

/-- The amended rejection predicate actually implemented: the same
scheme and IP-literal checks, the three literal host names the source
blocks, and acceptance (not rejection) of any other host name without
DNS-based classification. -/
def specRejectsAmended (s : String) : Bool :=
  match parseURL s with
  | none => true
  | some u =>
    if u.scheme ≠ "http" ∧ u.scheme ≠ "https" then true
    else
      let host := hostnameOf u.host
      if host = "localhost" ∨ host = "127.0.0.1" ∨ host = "0.0.0.0" then true
      else
        match parseIP host with
        | some ip => specUnsafeIP ip
        | none => false

/-- C1 counterexample: `http://intranet/pricing` has a host that cannot
be classified as public without DNS resolution, so the claim requires
rejection — but `validateURL` accepts it (any non-IP host other than the
three blocked literals passes). -/
theorem validateURL_conservative_counterexample :
    ¬ ((validateURL "http://intranet/pricing").isSome =
      specRejects "http://intranet/pricing") := by
  decide

theorem parseDecOctet_le (s : List Char) (v : ℕ) (h : parseDecOctet s = some v) :
    v ≤ 255 := by
  unfold parseDecOctet at h
  split at h
  · exact absurd h (by simp)
  · split at h
    · exact absurd h (by simp)
    · split at h
      · exact absurd h (by simp)
      · split at h
        · exact absurd h (by simp)
        · dsimp only at h
          split at h
          · rename_i hle
            rcases Option.some.injEq _ _ ▸ h with rfl
            exact hle
          · exact absurd h (by simp)

theorem parseIPv4_le (s : String) (a b c d : ℕ)
    (h : parseIPv4 s = some (a, b, c, d)) :
    a ≤ 255 ∧ b ≤ 255 ∧ c ≤ 255 ∧ d ≤ 255 := by
  have hmem : ∀ v : ℕ, some v ∈ (goSplitOn s ".").map (fun t => parseDecOctet t.data) →
      v ≤ 255 := by
    intro v hv
    obtain ⟨t, _, ht⟩ := List.mem_map.mp hv
    exact parseDecOctet_le _ _ ht
  unfold parseIPv4 at h
  split at h
  next a1 b1 c1 d1 heq =>
    obtain ⟨rfl, rfl, rfl, rfl⟩ : a1 = a ∧ b1 = b ∧ c1 = c ∧ d1 = d := by
      have h2 := Option.some.inj h
      simp only [Prod.mk.injEq] at h2
      exact ⟨h2.1, h2.2.1, h2.2.2.1, h2.2.2.2⟩
    refine ⟨hmem a1 ?_, hmem b1 ?_, hmem c1 ?_, hmem d1 ?_⟩ <;> rw [heq] <;> simp
  next => exact absurd h (by simp)

theorem hexVal_lt (c : Char) (h : isHexChar c = true) : hexVal c < 16 := by
  unfold isHexChar at h
  unfold hexVal
  simp only [Bool.or_eq_true, Bool.and_eq_true, decide_eq_true_eq] at h
  split
  · omega
  · split
    · omega
    · omega

theorem hexFoldl_lt : ∀ (l : List Char), (∀ c ∈ l, isHexChar c = true) → ∀ acc : ℕ,
    l.foldl (fun acc c => acc * 16 + hexVal c) acc < (acc + 1) * 16 ^ l.length := by
  intro l
  induction l with
  | nil =>
    intro _ acc
    simp
  | cons c rest ih =>
    intro hl acc
    rw [List.foldl_cons]
    have hc : hexVal c < 16 := hexVal_lt c (hl c (List.mem_cons_self _ _))
    have h2 := ih (fun x hx => hl x (List.mem_cons_of_mem _ hx)) (acc * 16 + hexVal c)
    have h3 : (acc * 16 + hexVal c + 1) * 16 ^ rest.length ≤
        (acc + 1) * 16 ^ (c :: rest).length := by
      rw [List.length_cons, pow_succ]
      have h4 : acc * 16 + hexVal c + 1 ≤ (acc + 1) * 16 := by omega
      calc (acc * 16 + hexVal c + 1) * 16 ^ rest.length
          ≤ (acc + 1) * 16 * 16 ^ rest.length := Nat.mul_le_mul_right _ h4
        _ = (acc + 1) * (16 ^ rest.length * 16) := by ring
    exact lt_of_lt_of_le h2 h3

theorem parseHexGroup_lt (s : List Char) (v : ℕ) (h : parseHexGroup s = some v) :
    v < 65536 := by
  unfold parseHexGroup at h
  split at h
  · exact absurd h (by simp)
  · split at h
    · exact absurd h (by simp)
    · split at h
      · exact absurd h (by simp)
      · rename_i hlen hhex
        rcases Option.some.injEq _ _ ▸ h with rfl
        have hall : s.all isHexChar = true := not_not.mp hhex
        have hb := hexFoldl_lt s (fun c hc => List.all_eq_true.mp hall c hc) 0
        have hpow : (16 : ℕ) ^ s.length ≤ 16 ^ 4 :=
          Nat.pow_le_pow_right (by norm_num) (by omega)
        calc s.foldl (fun acc c => acc * 16 + hexVal c) 0
            < (0 + 1) * 16 ^ s.length := hb
          _ ≤ 65536 := by
            rw [Nat.one_mul]
            exact le_trans hpow (by norm_num)

theorem parseGroupsAux_lt : ∀ parts gs, parseGroupsAux parts = some gs →
    ∀ g ∈ gs, g < 65536
  | [], gs, h => by
    rcases Option.some.injEq _ _ ▸ h with rfl
    simp
  | [last], gs, h => by
    simp only [parseGroupsAux] at h
    split at h
    · rename_i v hv
      rcases Option.some.injEq _ _ ▸ h with rfl
      intro g hg
      rcases List.mem_singleton.mp hg with rfl
      exact parseHexGroup_lt _ _ hv
    · split at h
      next a b c d habcd =>
        rcases Option.some.injEq _ _ ▸ h with rfl
        obtain ⟨ha, hb, hc, hd⟩ := parseIPv4_le last a b c d habcd
        intro g hg
        rcases List.mem_cons.mp hg with rfl | hg2
        · omega
        · rcases List.mem_singleton.mp hg2 with rfl
          omega
      next => exact absurd h (by simp)
  | g1 :: g2 :: rest, gs, h => by
    simp only [parseGroupsAux] at h
    split at h
    · rename_i v vs hv hvs
      rcases Option.some.injEq _ _ ▸ h with rfl
      intro g hg
      rcases List.mem_cons.mp hg with rfl | hm
      · exact parseHexGroup_lt _ _ hv
      · exact parseGroupsAux_lt (g2 :: rest) vs hvs g hm
    · exact absurd h (by simp)

theorem parseIPv6_lt (s : String) (gs : List ℕ) (h : parseIPv6 s = some gs) :
    ∀ g ∈ gs, g < 65536 := by
  unfold parseIPv6 at h
  split at h
  · rename_i one heq
    split at h
    · rename_i gs2 hgs2
      split at h
      · rcases Option.some.injEq _ _ ▸ h with rfl
        exact parseGroupsAux_lt _ _ hgs2
      · exact absurd h (by simp)
    · exact absurd h (by simp)
  · rename_i pre post heq
    split at h
    · rename_i gpre gpost hpre hpost
      split at h
      · rcases Option.some.injEq _ _ ▸ h with rfl
        have hp1 : ∀ g ∈ gpre, g < 65536 := by
          revert hpre
          split
          · intro hpre
            rcases Option.some.injEq _ _ ▸ hpre with rfl
            simp
          · intro hpre
            exact parseGroupsAux_lt _ _ hpre
        have hp2 : ∀ g ∈ gpost, g < 65536 := by
          revert hpost
          split
          · intro hpost
            rcases Option.some.injEq _ _ ▸ hpost with rfl
            simp
          · intro hpost
            exact parseGroupsAux_lt _ _ hpost
        intro g hg
        rcases List.mem_append.mp hg with hg1 | hg1
        · rcases List.mem_append.mp hg1 with hg2 | hg2
          · exact hp1 g hg2
          · rw [List.eq_of_mem_replicate hg2]
            norm_num
        · exact hp2 g hg1
      · exact absurd h (by simp)
    · exact absurd h (by simp)
  · exact absurd h (by simp)

theorem parseIP_v4_le (s : String) (a b c d : ℕ)
    (h : parseIP s = some (.v4 a b c d)) : a ≤ 255 ∧ b ≤ 255 := by
  unfold parseIP at h
  split at h
  · cases hp : parseIPv4 s with
    | none =>
      rw [hp] at h
      exact absurd h (by simp)
    | some q =>
      rw [hp] at h
      obtain ⟨a1, b1, c1, d1⟩ := q
      replace h : some (IPAddr.v4 a1 b1 c1 d1) = some (IPAddr.v4 a b c d) := h
      have h2 := Option.some.inj h
      have h3 : a1 = a ∧ b1 = b := by
        have := IPAddr.v4.injEq .. ▸ h2
        simp_all
      obtain ⟨h4, h5⟩ := parseIPv4_le s a1 b1 c1 d1 hp
      omega
  · split at h
    · rename_i gs hgs
      have hb := parseIPv6_lt _ _ hgs
      split at h
      · split at h
        · rename_i hi lo heq
          have h2 := Option.some.inj h
          have h3 : hi / 256 = a ∧ hi % 256 = b := by
            have := IPAddr.v4.injEq .. ▸ h2
            simp_all
          have hhi : hi < 65536 := by
            refine hb hi ?_
            have : hi ∈ gs.drop 6 := by rw [heq]; simp
            exact List.mem_of_mem_drop this
          omega
        · exact absurd h (by simp)
      · exact absurd h (Option.some.injEq .. ▸ by simp)
    · exact absurd h (by simp)

theorem parseIP_v6_lt (s : String) (gs : List ℕ)
    (h : parseIP s = some (.v6 gs)) : ∀ g ∈ gs, g < 65536 := by
  unfold parseIP at h
  split at h
  · cases hp : parseIPv4 s with
    | none =>
      rw [hp] at h
      exact absurd h (by simp)
    | some q =>
      rw [hp] at h
      exact absurd h (by simp)
  · split at h
    · rename_i gs2 hgs2
      split at h
      · split at h
        · exact absurd h (by simp)
        · exact absurd h (by simp)
      · have h2 := Option.some.inj h
        have h3 : gs2 = gs := by
          have := IPAddr.v6.injEq .. ▸ h2
          simp_all
        subst h3
        exact parseIPv6_lt _ _ hgs2
    · exact absurd h (by simp)

theorem and_div_pow (a b k : ℕ) : (a &&& b) / 2 ^ k = (a / 2 ^ k) &&& (b / 2 ^ k) := by
  induction k with
  | zero => simp
  | succ k ih =>
    rw [pow_succ, ← Nat.div_div_eq_div_mul, ih, Nat.and_div_two,
        Nat.div_div_eq_div_mul, Nat.div_div_eq_div_mul, ← pow_succ]

theorem and_mod_pow (a b k : ℕ) : (a &&& b) % 2 ^ k = (a % 2 ^ k) &&& (b % 2 ^ k) := by
  rw [← Nat.and_pow_two_sub_one_eq_mod (a &&& b), ← Nat.and_pow_two_sub_one_eq_mod a,
      ← Nat.and_pow_two_sub_one_eq_mod b]
  conv_lhs => rw [← Nat.and_self (2 ^ k - 1)]
  rw [Nat.and_assoc a, ← Nat.and_assoc b, Nat.and_comm b (2 ^ k - 1),
      Nat.and_assoc (2 ^ k - 1), ← Nat.and_assoc a, Nat.and_comm (2 ^ k - 1) b]

theorem and_high_mask (g n k : ℕ) (hk : k ≤ n) (hg : g < 2 ^ n) :
    g &&& (2 ^ n - 2 ^ k) = g / 2 ^ k * 2 ^ k := by
  have hmask : 2 ^ n - 2 ^ k = (2 ^ (n - k) - 1) * 2 ^ k := by
    have h1 : (2 : ℕ) ^ (n - k) * 2 ^ k = 2 ^ n := by
      rw [← pow_add]
      congr 1
      omega
    calc 2 ^ n - 2 ^ k = 2 ^ (n - k) * 2 ^ k - 1 * 2 ^ k := by rw [h1, one_mul]
      _ = (2 ^ (n - k) - 1) * 2 ^ k := by rw [Nat.sub_mul]
  rw [hmask]
  have hmod : (g &&& (2 ^ (n - k) - 1) * 2 ^ k) % 2 ^ k = 0 := by
    rw [and_mod_pow, Nat.mul_mod_left, Nat.and_zero]
  have hdiv : (g &&& (2 ^ (n - k) - 1) * 2 ^ k) / 2 ^ k = g / 2 ^ k := by
    rw [and_div_pow, Nat.mul_div_cancel _ (Nat.pos_pow_of_pos k (by omega)),
        Nat.and_pow_two_sub_one_eq_mod]
    refine Nat.mod_eq_of_lt ?_
    refine Nat.div_lt_of_lt_mul ?_
    calc g < 2 ^ n := hg
      _ = 2 ^ k * 2 ^ (n - k) := by rw [← pow_add]; congr 1; omega
  calc g &&& (2 ^ (n - k) - 1) * 2 ^ k
      = 2 ^ k * ((g &&& (2 ^ (n - k) - 1) * 2 ^ k) / 2 ^ k)
        + (g &&& (2 ^ (n - k) - 1) * 2 ^ k) % 2 ^ k := (Nat.div_add_mod _ _).symm
    _ = g / 2 ^ k * 2 ^ k := by rw [hmod, hdiv, Nat.add_zero, Nat.mul_comm]

theorem v4_mask_private : ∀ b, b < 256 → ((b &&& 240 = 16) ↔ (16 ≤ b ∧ b ≤ 31)) := by
  intro b hb
  have h : b &&& 240 = b / 16 * 16 := by
    have := and_high_mask b 8 4 (by omega) (by norm_num; omega)
    norm_num at this
    exact this
  rw [h]
  omega

theorem v6_mask_private (g : ℕ) (hg : g < 65536) :
    (g &&& 65024 = 64512) ↔ (64512 ≤ g ∧ g ≤ 65023) := by
  have h : g &&& 65024 = g / 512 * 512 := by
    have := and_high_mask g 16 9 (by omega) (by norm_num; omega)
    norm_num at this
    exact this
  rw [h]
  omega

theorem v6_mask_linklocal (g : ℕ) (hg : g < 65536) :
    (g &&& 65472 = 65152) ↔ (65152 ≤ g ∧ g ≤ 65215) := by
  have h : g &&& 65472 = g / 64 * 64 := by
    have := and_high_mask g 16 6 (by omega) (by norm_num; omega)
    norm_num at this
    exact this
  rw [h]
  omega

theorem v4_unsafe_eq (a b c d : ℕ) (hb : b < 256) :
    (isLoopback (.v4 a b c d) || isPrivate (.v4 a b c d) ||
      isLinkLocalUnicast (.v4 a b c d)) = specUnsafeIP (.v4 a b c d) := by
  have hmask := v4_mask_private b hb
  rw [Bool.eq_iff_iff]
  simp only [isLoopback, isPrivate, isLinkLocalUnicast, specUnsafeIP,
    Bool.or_eq_true, Bool.and_eq_true, decide_eq_true_eq, hmask]

theorem v6_unsafe_eq (gs : List ℕ) (hg : ∀ g ∈ gs, g < 65536) :
    (isLoopback (.v6 gs) || isPrivate (.v6 gs) ||
      isLinkLocalUnicast (.v6 gs)) = specUnsafeIP (.v6 gs) := by
  rw [Bool.eq_iff_iff]
  cases hh : gs.head? with
  | none =>
    simp [isLoopback, isPrivate, isLinkLocalUnicast, specUnsafeIP, hh]
  | some g =>
    have hglt : g < 65536 := hg g (List.mem_of_mem_head? hh)
    have h1 := v6_mask_private g hglt
    have h2 := v6_mask_linklocal g hglt
    simp only [isLoopback, isPrivate, isLinkLocalUnicast, specUnsafeIP, hh,
      Bool.or_eq_true, Bool.and_eq_true, decide_eq_true_eq]
    rw [h1, h2, or_assoc]

/-- C1 (amended): `validateURL` rejects exactly when the scheme is not
http/https, the host is one of the literals `localhost`, `127.0.0.1`,
`0.0.0.0`, or the host is an IP literal in a loopback, private, or
link-local range; any other host name is accepted without DNS-based
classification (not rejected conservatively).  The claim's three
concrete examples behave as stated. -/
theorem validateURL_characterization (s : String) :
    (validateURL s).isSome = specRejectsAmended s ∧
    validateURL "http://127.0.0.1/pricing" = some "localhost not allowed" ∧
    validateURL "http://localhost:8080" = some "localhost not allowed" ∧
    validateURL "https://example.com/pricing" = none := by
  refine ⟨?_, by decide, by decide, by decide⟩
  unfold validateURL specRejectsAmended
  cases hp : parseURL s with
  | none => rfl
  | some u =>
    dsimp only
    by_cases hs : u.scheme ≠ "http" ∧ u.scheme ≠ "https"
    · rw [if_pos hs, if_pos hs]
      rfl
    · rw [if_neg hs, if_neg hs]
      by_cases hl : hostnameOf u.host = "localhost" ∨
          hostnameOf u.host = "127.0.0.1" ∨ hostnameOf u.host = "0.0.0.0"
      · rw [if_pos hl, if_pos hl]
        rfl
      · rw [if_neg hl, if_neg hl]
        cases hip : parseIP (hostnameOf u.host) with
        | none => rfl
        | some ip =>
          cases ip with
          | v4 a b c d =>
            have hb := (parseIP_v4_le _ a b c d hip).2
            have he := v4_unsafe_eq a b c d (by omega)
            cases hx : (isLoopback (IPAddr.v4 a b c d) || isPrivate (IPAddr.v4 a b c d) ||
                isLinkLocalUnicast (IPAddr.v4 a b c d)) <;>
              (rw [hx] at he; simp [hx, ← he])
          | v6 gs =>
            have hg := parseIP_v6_lt _ gs hip
            have he := v6_unsafe_eq gs hg
            cases hx : (isLoopback (IPAddr.v6 gs) || isPrivate (IPAddr.v6 gs) ||
                isLinkLocalUnicast (IPAddr.v6 gs)) <;>
              (rw [hx] at he; simp [hx, ← he])

theorem validateURL_characterization_witness :
    ((validateURL "http://intranet/pricing").isSome =
      specRejectsAmended "http://intranet/pricing") ∧
    validateURL "http://127.0.0.1/pricing" = some "localhost not allowed" ∧
    validateURL "http://localhost:8080" = some "localhost not allowed" ∧
    validateURL "https://example.com/pricing" = none :=
  validateURL_characterization "http://intranet/pricing"

end RevSaaS
